import Mathlib

/-!
Verification of the follower-side AppendEntries handler of the openraft
repository (src/openraft/src/core/append_entries.rs, with the earlier
revision in src/async-raft/src/core/append_entries.rs).

The data model and every handler operation are shallowly embedded below as
executable Lean functions.  Machine integers (u64) are modelled as Nat: no
arithmetic in the handler can overflow a u64 in any scenario considered and
the handler performs no wrapping arithmetic.  Storage is modelled by the
list of log entries held in the node state; each storage call additionally
emits an `Event` so that ordering and frame properties of the storage
traffic can be stated.  A `none` result of a handler function models a Rust
panic (the only panic site is the `unwrap()` in
`replicate_to_state_machine_if_needed`, line 393 of the openraft revision).
-/

/-- `LogId` from the repository: a `(term, index)` pair identifying a log
entry, ordered lexicographically by term then index (the type itself is
declared in `raft_types.rs`, outside the extracted sources; the ordering is
the derived lexicographic one, as the spec's data model states). -/
structure LogId where
  term : Nat
  index : Nat
deriving DecidableEq

/-- Lexicographic order on `LogId` (term first, then index), as derived by
`PartialOrd`/`Ord` in Rust. -/
def LogId.leb (a b : LogId) : Bool :=
  decide (a.term < b.term) || (decide (a.term = b.term) && decide (a.index ≤ b.index))

/-- Rust's derived order on `Option<LogId>`: `None` is below any `Some`. -/
def optLeb : Option LogId → Option LogId → Bool
  | none, _ => true
  | some _, none => false
  | some a, some b => a.leb b

/-- `std::cmp::min` on `Option<LogId>`: returns the first argument when the
two compare equal. -/
def optMin (a b : Option LogId) : Option LogId :=
  if optLeb a b then a else b

/-- `EntryPayload` from `raft/mod.rs` (outside the extracted sources, used
by the handler): `Blank`, `Normal` application data, or a `Membership`
configuration.  Application data and configurations are opaque to the
handler and are modelled as numbers. -/
inductive EntryPayload where
  | blank : EntryPayload
  | normal (data : Nat) : EntryPayload
  | membership (config : Nat) : EntryPayload
deriving DecidableEq

/-- A log entry: a `LogId` plus a payload. -/
structure Entry where
  log_id : LogId
  payload : EntryPayload
deriving DecidableEq

/-- `EffectiveMembership`: the configuration in force together with the log
position that introduced it. -/
structure EffectiveMembership where
  log_id : LogId
  membership : Nat
deriving DecidableEq

/-- Modelled from the spec: `EffectiveMembership::new_initial(id)` (body not
in the extracted sources) produces the well-known initial membership value
for a node; its log position is the reserved "no entry" position
`(0, 0)` and its configuration is the singleton set of the node itself. -/
def EffectiveMembership.new_initial (id : Nat) : EffectiveMembership :=
  { log_id := { term := 0, index := 0 }, membership := id }

/-- The `State` role enum of `RaftCore` (`core/mod.rs`, outside the
extracted sources; variants per the spec's data model). -/
inductive NodeState where
  | leader : NodeState
  | candidate : NodeState
  | follower : NodeState
  | learner : NodeState
  | shutdown : NodeState
deriving DecidableEq

def NodeState.is_follower : NodeState → Bool
  | NodeState.follower => true
  | _ => false

def NodeState.is_learner : NodeState → Bool
  | NodeState.learner => true
  | _ => false

/-- The fields of `RaftCore` read or mutated by the AppendEntries handler.
The storage's durable log is modelled by the `log` field (list of entries in
store order) and the state machine's applied entries by `sm`. -/
structure RaftCore where
  id : Nat
  current_term : Nat
  voted_for : Option Nat
  current_leader : Option Nat
  target_state : NodeState
  last_log_id : Option LogId
  committed : Option LogId
  last_applied : Option LogId
  effective_membership : EffectiveMembership
  election_tick : Nat
  log : List Entry
  sm : List Entry
deriving DecidableEq

/-- AppendEntries request fields (`raft/mod.rs`). -/
structure AppendEntriesRequest where
  term : Nat
  leader_id : Nat
  prev_log_id : Option LogId
  entries : List Entry
  leader_commit : Option LogId
deriving DecidableEq

/-- AppendEntries response fields of the openraft revision. -/
structure AppendEntriesResponse where
  term : Nat
  success : Bool
  conflict : Bool
deriving DecidableEq

/-- One storage call or membership installation performed while handling a
request, recorded in order of execution. -/
inductive Event where
  | saveHardState (term : Nat) (voted_for : Option Nat) : Event
  | tryGet (index : Nat) : Event
  | getEntries (lo hi : Nat) : Event
  | deleteSince (start : LogId) : Event
  | getLogState : Event
  | getMembership : Event
  | appendLog (entries : List Entry) : Event
  | applySM (entries : List Entry) : Event
  | updateMembership (m : EffectiveMembership) : Event
  | metrics : Event
deriving DecidableEq

/-- `RaftStorage::try_get_log_entry(index)`: the entry at `index`, `None` if
absent (store interface, modelled per spec section 4.2 over the durable
log). -/
def try_get_log_entry (log : List Entry) (i : Nat) : Option Entry :=
  log.find? (fun e => decide (e.log_id.index = i))

/-- `RaftStorage::delete_conflict_logs_since(start)`: durable deletion of
every entry at and after `start.index` (store interface, modelled per spec
section 4.2). -/
def store_delete_since (log : List Entry) (start : LogId) : List Entry :=
  log.filter (fun e => decide (e.log_id.index < start.index))

/-- `RaftStorage::get_log_state().last_log_id` (store interface, modelled
per spec section 4.2): the id of the last entry of the durable log. -/
def get_log_state_last (log : List Entry) : Option LogId :=
  log.getLast?.map (fun e => e.log_id)

/-- `RaftStorage::get_membership()` (store interface): modelled from the
spec, section 6 — membership is recovered by scanning the durable log for
the last `Membership` payload. -/
def get_membership (log : List Entry) : Option EffectiveMembership :=
  (log.filterMap (fun e =>
    match e.payload with
    | EntryPayload.membership conf => some { log_id := e.log_id, membership := conf }
    | _ => none)).getLast?

/-- `RaftStorage::get_log_entries(range)` (store interface, modelled per
spec section 4.2): the entries of the durable log whose index lies in the
half-open range `[lo, hi)`. -/
def get_log_entries (log : List Entry) (lo hi : Nat) : List Entry :=
  log.filter (fun e => decide (lo ≤ e.log_id.index) && decide (e.log_id.index < hi))

/-- `LogIdOptionExt::next_index` (`raft_types.rs`, outside the extracted
sources): modelled from the spec — index 0 is reserved as "no entry", so the
position after `None` is 0 and the position after `Some(l)` is
`l.index + 1`. -/
def next_index : Option LogId → Nat
  | none => 0
  | some l => l.index + 1

/-- Modelled from the spec: `RaftCore::update_current_term` (body not in the
extracted sources).  Spec section 4.1 Phase 3: set
`current_term = request.term`, clear `voted_for`.  The second argument (a
leader hint at the call site) does not affect this spec-mandated outcome. -/
def RaftCore.update_current_term (st : RaftCore) (term : Nat) (_hint : Option Nat) : RaftCore :=
  { st with current_term := term, voted_for := none }

/-- Modelled from the spec: `RaftCore::update_membership` (body not in the
extracted sources) installs the given value as the node's
`EffectiveMembership` (spec section 4.4). -/
def RaftCore.update_membership (st : RaftCore) (m : EffectiveMembership) : RaftCore :=
  { st with effective_membership := m }

/-- Modelled from the spec: `RaftCore::update_next_election_timeout` (body
not in the extracted sources) bumps the election deadline (spec section 4.1
Phase 2), modelled as an abstract tick counter. -/
def RaftCore.update_next_election_timeout (st : RaftCore) : RaftCore :=
  { st with election_tick := st.election_tick + 1 }

/-- `delete_conflict_logs_since` (openraft append_entries.rs lines 104-124):
delete from the store, then refresh `last_log_id` from the store's log state
and re-derive the effective membership from the durable log, falling back to
the well-known initial membership. -/
def RaftCore.delete_conflict_logs_since (st : RaftCore) (start : LogId) :
    RaftCore × List Event :=
  let log2 := store_delete_since st.log start
  let st1 := { st with log := log2, last_log_id := get_log_state_last log2 }
  let m := (get_membership log2).getD (EffectiveMembership.new_initial st.id)
  (st1.update_membership m,
   [Event.deleteSince start, Event.getLogState, Event.getMembership, Event.updateMembership m])

/-- `does_log_id_match` (openraft append_entries.rs lines 300-329): `none`
when `remote_log_id` is consistent with local storage, otherwise the
mismatching log id. -/
def does_log_id_match (st : RaftCore) (remote_log_id : Option LogId) :
    Option LogId × List Event :=
  match remote_log_id with
  | none => (none, [])
  | some x =>
    if optLeb (some x) st.committed then (none, [])
    else
      match try_get_log_entry st.log x.index with
      | some localE =>
        if localE.log_id = x then (none, [Event.tryGet x.index])
        else (some x, [Event.tryGet x.index])
      | none => (some x, [Event.tryGet x.index])

/-- `skip_matching_entries` (openraft append_entries.rs lines 266-294): the
number of leading entries that match local storage (by being at or below
`committed`, or by log id equality with the local entry at the same index)
together with the remaining entries. -/
def skip_matching_entries (st : RaftCore) : List Entry → (Nat × List Entry) × List Event
  | [] => ((0, []), [])
  | e :: rest =>
    if optLeb (some e.log_id) st.committed then
      let r := skip_matching_entries st rest
      ((r.1.1 + 1, r.1.2), r.2)
    else
      match try_get_log_entry st.log e.log_id.index with
      | some localE =>
        if localE.log_id = e.log_id then
          let r := skip_matching_entries st rest
          ((r.1.1 + 1, r.1.2), Event.tryGet e.log_id.index :: r.2)
        else ((0, e :: rest), [Event.tryGet e.log_id.index])
      | none => ((0, e :: rest), [Event.tryGet e.log_id.index])

/-- `find_and_delete_conflict_logs` (openraft append_entries.rs lines
166-193): nothing to do on an empty batch or when the batch starts beyond
the local log; otherwise delete from the first entry's index. -/
def RaftCore.find_and_delete_conflict_logs (st : RaftCore) (msg_entries : List Entry) :
    RaftCore × List Event :=
  match msg_entries with
  | [] => (st, [])
  | e0 :: _ =>
    match st.last_log_id with
    | some last =>
      if e0.log_id.index > last.index then (st, [])
      else st.delete_conflict_logs_since e0.log_id
    | none => st.delete_conflict_logs_since e0.log_id

/-- `append_log_entries` (openraft append_entries.rs lines 336-369): detect
the most recent membership configuration in the batch and install it, then
append the batch to the store and advance `last_log_id`. -/
def RaftCore.append_log_entries (st : RaftCore) (entries : List Entry) :
    RaftCore × List Event :=
  if entries.isEmpty then (st, [])
  else
    let last_conf_change :=
      (entries.filterMap (fun ent =>
        match ent.payload with
        | EntryPayload.membership conf =>
          some ({ log_id := ent.log_id, membership := conf } : EffectiveMembership)
        | _ => none)).getLast?
    let stepConf : RaftCore × List Event :=
      match last_conf_change with
      | some conf => (st.update_membership conf, [Event.updateMembership conf])
      | none => (st, [])
    let st2 := { stepConf.1 with log := stepConf.1.log ++ entries }
    let st3 :=
      match entries.getLast? with
      | some e => { st2 with last_log_id := some e.log_id }
      | none => st2
    (st3, stepConf.2 ++ [Event.appendLog entries])

/-- `replicate_to_state_machine_if_needed` (openraft append_entries.rs lines
376-408).  `none` models the panic of the `unwrap()` on
`entries.last()` when the store returns an empty slice for the range
`(last_applied, committed]`. -/
def RaftCore.replicate_to_state_machine_if_needed (st : RaftCore) :
    Option (RaftCore × List Event) :=
  if optLeb st.committed st.last_applied then some (st, [])
  else
    let lo := next_index st.last_applied
    let hi := next_index st.committed
    let entries := get_log_entries st.log lo hi
    match entries.getLast? with
    | none => none
    | some lastE =>
      some ({ st with sm := st.sm ++ entries, last_applied := some lastE.log_id },
            [Event.getEntries lo hi, Event.applySM entries, Event.metrics])

/-- `append_apply_log_entries` (openraft append_entries.rs lines 198-259):
consistency check on `prev_log_id`; on mismatch truncate (when the mismatch
lies within the local log) and reject with a conflict hint; on match skip
the already-matching leading entries, delete conflicts, append, set
`committed`, and apply. -/
def RaftCore.append_apply_log_entries (st : RaftCore) (prev_log_id : Option LogId)
    (entries : List Entry) (committed : Option LogId) :
    Option (AppendEntriesResponse × RaftCore × List Event) :=
  let m0 := does_log_id_match st prev_log_id
  match m0.1 with
  | some mismatched_log_id =>
    let step : RaftCore × List Event :=
      match st.last_log_id with
      | some last =>
        if mismatched_log_id.index ≤ last.index then
          st.delete_conflict_logs_since mismatched_log_id
        else (st, [])
      | none => (st, [])
    some ({ term := step.1.current_term, success := false, conflict := true },
          step.1, m0.2 ++ step.2)
  | none =>
    let sk := skip_matching_entries st entries
    let s1 := st.find_and_delete_conflict_logs sk.1.2
    let s2 := s1.1.append_log_entries sk.1.2
    let st3 := { s2.1 with committed := committed }
    match st3.replicate_to_state_machine_if_needed with
    | none => none
    | some (st4, tr4) =>
      some ({ term := st4.current_term, success := true, conflict := false },
            st4, m0.2 ++ sk.2 ++ s1.2 ++ s2.2 ++ tr4 ++ [Event.metrics])

/-- The commit candidate of openraft append_entries.rs lines 61-62:
`min(leader_commit, entries.last().map(log_id).unwrap_or(prev_log_id))`. -/
def valid_committed_of (msg : AppendEntriesRequest) : Option LogId :=
  optMin msg.leader_commit
    ((msg.entries.getLast?.map (fun x => some x.log_id)).getD msg.prev_log_id)

/-- The election-timer reset and term/leader/role update block of
`handle_append_entries_request` (openraft append_entries.rs lines 43 and
64-89), entered only after the term gate. -/
def RaftCore.update_term_leader (st : RaftCore) (msg : AppendEntriesRequest) :
    RaftCore × List Event :=
  let st1 := st.update_next_election_timeout
  let stepBump : RaftCore × List Event :=
    if st1.current_term < msg.term then
      let s := st1.update_current_term msg.term (some msg.leader_id)
      (s, [Event.saveHardState s.current_term s.voted_for])
    else (st1, [])
  let report :=
    decide (st1.current_term < msg.term) || decide (stepBump.1.current_leader ≠ some msg.leader_id)
  let st3 := { stepBump.1 with current_leader := some msg.leader_id }
  let tr3 := if report then [Event.metrics] else []
  let st4 :=
    if !st3.target_state.is_follower && !st3.target_state.is_learner then
      { st3 with target_state := NodeState.follower }
    else st3
  (st4, stepBump.2 ++ tr3)

/-- `handle_append_entries_request` (openraft append_entries.rs lines
25-101): term gate, election-timer reset, commit-candidate computation,
term/leader/role update, then `append_apply_log_entries`. -/
def RaftCore.handle_append_entries_request (st : RaftCore) (msg : AppendEntriesRequest) :
    Option (AppendEntriesResponse × RaftCore × List Event) :=
  if msg.term < st.current_term then
    some ({ term := st.current_term, success := false, conflict := false }, st, [])
  else
    let valid_committed := valid_committed_of msg
    let s := st.update_term_leader msg
    match s.1.append_apply_log_entries msg.prev_log_id msg.entries valid_committed with
    | none => none
    | some (resp, st5, tr5) => some (resp, st5, s.2 ++ tr5)

/-- Handling a sequence of requests, stopping at the first panic. -/
def run_requests (st : RaftCore) : List AppendEntriesRequest → Option RaftCore
  | [] => some st
  | r :: rs =>
    match st.handle_append_entries_request r with
    | none => none
    | some (_, st1, _) => run_requests st1 rs

/-- The matching condition of the loop body of `skip_matching_entries`
(openraft append_entries.rs lines 272-288): an entry is skipped when its log
id is at or below `committed`, or when the local entry at its index has the
same log id. -/
def entry_matches (st : RaftCore) (e : Entry) : Bool :=
  optLeb (some e.log_id) st.committed ||
    (match try_get_log_entry st.log e.log_id.index with
     | some localE => decide (localE.log_id = e.log_id)
     | none => false)

/-- Strictly ascending entry indices: the well-formedness of a stored log
or of the entries of a well-formed AppendEntries request. -/
def entries_ascending (l : List Entry) : Prop :=
  l.Pairwise (fun a b => a.log_id.index < b.log_id.index)

/-- Index of an optional log id, with `none` (no entry) as 0, the reserved
"no entry" index. -/
def opt_index : Option LogId → Nat
  | none => 0
  | some l => l.index

/-- Does the trace install every given membership only after some
`append_to_log` call?  This is the ordering asserted by the spec for
membership activation (section 4.4). -/
def installed_after_append (tr : List Event) (m : EffectiveMembership) : Bool :=
  match tr.findIdx? (fun ev => decide (ev = Event.updateMembership m)),
        tr.findIdx? (fun ev => match ev with | Event.appendLog _ => true | _ => false) with
  | some i, some j => decide (j < i)
  | _, _ => false

/-! Concrete states and requests used by the closed witnesses and
counterexamples below. -/

/-- A freshly started empty node at term 0. -/
def st_empty : RaftCore :=
  { id := 0, current_term := 0, voted_for := none, current_leader := none,
    target_state := NodeState.follower, last_log_id := none, committed := none,
    last_applied := none, effective_membership := EffectiveMembership.new_initial 0,
    election_tick := 0, log := [], sm := [] }

def entry11 : Entry := { log_id := { term := 1, index := 1 }, payload := EntryPayload.blank }
def entry12 : Entry := { log_id := { term := 1, index := 2 }, payload := EntryPayload.blank }
def entry13 : Entry := { log_id := { term := 1, index := 3 }, payload := EntryPayload.blank }
def entry14 : Entry := { log_id := { term := 1, index := 4 }, payload := EntryPayload.blank }
def entry23 : Entry := { log_id := { term := 2, index := 3 }, payload := EntryPayload.blank }
def entry33 : Entry := { log_id := { term := 3, index := 3 }, payload := EntryPayload.blank }
def entry34 : Entry := { log_id := { term := 3, index := 4 }, payload := EntryPayload.blank }
def entryM1 : Entry := { log_id := { term := 1, index := 1 }, payload := EntryPayload.membership 7 }

/-- Replication request filling an empty node up to `(1,2)` and committing it. -/
def req_fill : AppendEntriesRequest :=
  { term := 1, leader_id := 10, prev_log_id := none, entries := [entry11, entry12],
    leader_commit := some { term := 1, index := 2 } }

/-- A heartbeat from a leader whose log is empty: no predecessor, no
entries, no commit watermark. -/
def req_none_heartbeat : AppendEntriesRequest :=
  { term := 1, leader_id := 10, prev_log_id := none, entries := [], leader_commit := none }

/-- The node state after `st_empty` handled `req_fill`. -/
def st_after_fill : RaftCore :=
  { id := 0, current_term := 1, voted_for := none, current_leader := some 10,
    target_state := NodeState.follower,
    last_log_id := some { term := 1, index := 2 },
    committed := some { term := 1, index := 2 },
    last_applied := some { term := 1, index := 2 },
    effective_membership := EffectiveMembership.new_initial 0,
    election_tick := 1, log := [entry11, entry12], sm := [entry11, entry12] }

/-- A node that knows `(1,5)` is committed but whose local log is empty
(its committed prefix is not present in the store). -/
def st_commit_beyond_log : RaftCore :=
  { st_empty with current_term := 1, committed := some { term := 1, index := 5 } }

/-- A heartbeat whose predecessor `(1,2)` lies below the node's `committed`. -/
def req_hb_below_commit : AppendEntriesRequest :=
  { term := 1, leader_id := 2, prev_log_id := some { term := 1, index := 2 }, entries := [],
    leader_commit := some { term := 1, index := 2 } }

/-- A request carrying one membership entry to an empty node. -/
def req_membership : AppendEntriesRequest :=
  { term := 1, leader_id := 3, prev_log_id := none, entries := [entryM1], leader_commit := none }

/-- Spec scenario 3: a node at term 5. -/
def st_term5 : RaftCore := { st_empty with current_term := 5 }

/-- Spec scenario 3: a stale request at term 4. -/
def req_stale : AppendEntriesRequest :=
  { term := 4, leader_id := 1, prev_log_id := none, entries := [], leader_commit := none }

/-- Spec scenario 5: log `(1,1) (1,2) (2,3)` with `(1,2)` committed. -/
def st_conflict3 : RaftCore :=
  { st_empty with
      current_term := 2
      log := [entry11, entry12, entry23]
      last_log_id := some { term := 2, index := 3 }
      committed := some { term := 1, index := 2 } }

/-- Spec scenario 5: overwrite `(2,3)` with `(3,3) (3,4)`. -/
def req_overwrite : AppendEntriesRequest :=
  { term := 3, leader_id := 9, prev_log_id := some { term := 1, index := 2 },
    entries := [entry33, entry34], leader_commit := some { term := 3, index := 3 } }

/-- Spec scenario 4: request whose predecessor `(2,5)` is beyond the log. -/
def req_too_short : AppendEntriesRequest :=
  { term := 3, leader_id := 9, prev_log_id := some { term := 2, index := 5 }, entries := [],
    leader_commit := none }

/-- Spec scenario 6: log `(1,1) (1,2) (1,3)` with `(1,1)` committed. -/
def st_skip3 : RaftCore :=
  { st_empty with
      current_term := 1
      log := [entry11, entry12, entry13]
      last_log_id := some { term := 1, index := 3 }
      committed := some { term := 1, index := 1 } }

/-- Spec scenario 6: entries `(1,2) (1,3) (1,4)`, two of which match. -/
def req_skip : AppendEntriesRequest :=
  { term := 1, leader_id := 9, prev_log_id := some { term := 1, index := 1 },
    entries := [entry12, entry13, entry14], leader_commit := some { term := 1, index := 3 } }

/-- Spec scenario 1: a first replication of `(1,1)` to an empty node. -/
def req_first : AppendEntriesRequest :=
  { term := 1, leader_id := 10, prev_log_id := none, entries := [entry11], leader_commit := none }

/-- The node state after `st_empty` handled `req_first`. -/
def st_after_first : RaftCore :=
  { id := 0, current_term := 1, voted_for := none, current_leader := some 10,
    target_state := NodeState.follower, last_log_id := some { term := 1, index := 1 },
    committed := none, last_applied := none,
    effective_membership := EffectiveMembership.new_initial 0,
    election_tick := 1, log := [entry11], sm := [] }

/-- The events recorded while `st_empty` handled `req_first`. -/
def tr_after_first : List Event :=
  [Event.saveHardState 1 none, Event.metrics, Event.tryGet 1,
   Event.deleteSince { term := 1, index := 1 }, Event.getLogState, Event.getMembership,
   Event.updateMembership (EffectiveMembership.new_initial 0),
   Event.appendLog [entry11], Event.metrics]

/-- The node state after `st_empty` handled `req_membership`. -/
def st_after_membership : RaftCore :=
  { id := 0, current_term := 1, voted_for := none, current_leader := some 3,
    target_state := NodeState.follower, last_log_id := some { term := 1, index := 1 },
    committed := none, last_applied := none,
    effective_membership := { log_id := { term := 1, index := 1 }, membership := 7 },
    election_tick := 1, log := [entryM1], sm := [] }

/-- The events recorded while `st_empty` handled `req_membership`. -/
def tr_after_membership : List Event :=
  [Event.saveHardState 1 none, Event.metrics, Event.tryGet 1,
   Event.deleteSince { term := 1, index := 1 }, Event.getLogState, Event.getMembership,
   Event.updateMembership (EffectiveMembership.new_initial 0),
   Event.updateMembership { log_id := { term := 1, index := 1 }, membership := 7 },
   Event.appendLog [entryM1], Event.metrics]

/-- The node state after `st_conflict3` handled `req_overwrite` (spec
scenario 5). -/
def st_after_overwrite : RaftCore :=
  { id := 0, current_term := 3, voted_for := none, current_leader := some 9,
    target_state := NodeState.follower, last_log_id := some { term := 3, index := 4 },
    committed := some { term := 3, index := 3 },
    last_applied := some { term := 3, index := 3 },
    effective_membership := EffectiveMembership.new_initial 0,
    election_tick := 1, log := [entry11, entry12, entry33, entry34],
    sm := [entry11, entry12, entry33] }

/-- The events recorded while `st_conflict3` handled `req_overwrite`. -/
def tr_after_overwrite : List Event :=
  [Event.saveHardState 3 none, Event.metrics, Event.tryGet 3,
   Event.deleteSince { term := 3, index := 3 }, Event.getLogState, Event.getMembership,
   Event.updateMembership (EffectiveMembership.new_initial 0),
   Event.appendLog [entry33, entry34], Event.getEntries 0 4,
   Event.applySM [entry11, entry12, entry33], Event.metrics, Event.metrics]

/-! ## Order lemmas -/

theorem LogId.leb_total (a b : LogId) : a.leb b = true ∨ b.leb a = true := by
  simp only [LogId.leb, Bool.or_eq_true, Bool.and_eq_true, decide_eq_true_eq]
  omega

theorem optLeb_total (a b : Option LogId) : optLeb a b = true ∨ optLeb b a = true := by
  cases a with
  | none => left; rfl
  | some x =>
    cases b with
    | none => right; rfl
    | some y => exact LogId.leb_total x y

theorem optLeb_refl (a : Option LogId) : optLeb a a = true := by
  cases a with
  | none => rfl
  | some x => simp [optLeb, LogId.leb]

theorem optMin_leb_right (a b : Option LogId) : optLeb (optMin a b) b = true := by
  unfold optMin
  split
  · assumption
  · exact optLeb_refl b

/-! ## Frame lemmas for the handler's sub-operations -/

theorem dcls_fields (st : RaftCore) (start : LogId) :
    (st.delete_conflict_logs_since start).1.current_term = st.current_term
    ∧ (st.delete_conflict_logs_since start).1.voted_for = st.voted_for
    ∧ (st.delete_conflict_logs_since start).1.committed = st.committed
    ∧ (st.delete_conflict_logs_since start).1.last_applied = st.last_applied
    ∧ (st.delete_conflict_logs_since start).1.current_leader = st.current_leader
    ∧ (st.delete_conflict_logs_since start).1.target_state = st.target_state
    ∧ (st.delete_conflict_logs_since start).1.election_tick = st.election_tick
    ∧ (st.delete_conflict_logs_since start).1.sm = st.sm
    ∧ (st.delete_conflict_logs_since start).1.id = st.id
    ∧ (st.delete_conflict_logs_since start).1.log = store_delete_since st.log start
    ∧ (st.delete_conflict_logs_since start).1.last_log_id
        = get_log_state_last (store_delete_since st.log start)
    ∧ (st.delete_conflict_logs_since start).1.effective_membership
        = (get_membership (store_delete_since st.log start)).getD
            (EffectiveMembership.new_initial st.id) :=
  ⟨rfl, rfl, rfl, rfl, rfl, rfl, rfl, rfl, rfl, rfl, rfl, rfl⟩

theorem dcls_events (st : RaftCore) (start : LogId) :
    (st.delete_conflict_logs_since start).2 =
      [Event.deleteSince start, Event.getLogState, Event.getMembership,
       Event.updateMembership ((get_membership (store_delete_since st.log start)).getD
         (EffectiveMembership.new_initial st.id))] := rfl

theorem fad_cases (st : RaftCore) (es : List Entry) :
    (st.find_and_delete_conflict_logs es = (st, [])
      ∧ (es = [] ∨ ∃ e0 last, es.head? = some e0 ∧ st.last_log_id = some last
          ∧ last.index < e0.log_id.index))
    ∨ (∃ e0, es.head? = some e0
        ∧ st.find_and_delete_conflict_logs es = st.delete_conflict_logs_since e0.log_id
        ∧ (st.last_log_id = none ∨ ∃ last, st.last_log_id = some last
            ∧ e0.log_id.index ≤ last.index)) := by
  cases es with
  | nil => exact Or.inl ⟨rfl, Or.inl rfl⟩
  | cons e0 rest =>
    unfold RaftCore.find_and_delete_conflict_logs
    cases hll : st.last_log_id with
    | none => exact Or.inr ⟨e0, rfl, rfl, Or.inl rfl⟩
    | some last =>
      dsimp only
      by_cases hgt : e0.log_id.index > last.index
      · rw [if_pos hgt]
        exact Or.inl ⟨rfl, Or.inr ⟨e0, last, rfl, rfl, hgt⟩⟩
      · rw [if_neg hgt]
        exact Or.inr ⟨e0, rfl, rfl, Or.inr ⟨last, rfl, Nat.le_of_not_lt hgt⟩⟩

theorem append_log_nil (st : RaftCore) : st.append_log_entries [] = (st, []) := rfl

theorem append_log_result (st : RaftCore) (e0 : Entry) (rest : List Entry) :
    ∃ lastE, (e0 :: rest).getLast? = some lastE ∧
      st.append_log_entries (e0 :: rest) =
        ({ st with
            effective_membership :=
              (get_membership (e0 :: rest)).getD st.effective_membership,
            log := st.log ++ e0 :: rest,
            last_log_id := some lastE.log_id },
         (match get_membership (e0 :: rest) with
          | some c => [Event.updateMembership c]
          | none => []) ++ [Event.appendLog (e0 :: rest)]) := by
  obtain ⟨lastE, hl⟩ : ∃ x, (e0 :: rest).getLast? = some x := by
    cases h : (e0 :: rest).getLast? with
    | none => simp at h
    | some x => exact ⟨x, rfl⟩
  refine ⟨lastE, hl, ?_⟩
  unfold RaftCore.append_log_entries get_membership
  cases hconf : ((e0 :: rest).filterMap (fun e =>
      match e.payload with
      | EntryPayload.membership conf =>
        some ({ log_id := e.log_id, membership := conf } : EffectiveMembership)
      | _ => none)).getLast? with
  | none => simp [hconf, hl, RaftCore.update_membership]
  | some c => simp [hconf, hl, RaftCore.update_membership]

theorem replicate_some_fields (st st' : RaftCore) (tr : List Event)
    (h : st.replicate_to_state_machine_if_needed = some (st', tr)) :
    st'.current_term = st.current_term
    ∧ st'.voted_for = st.voted_for
    ∧ st'.committed = st.committed
    ∧ st'.current_leader = st.current_leader
    ∧ st'.target_state = st.target_state
    ∧ st'.election_tick = st.election_tick
    ∧ st'.id = st.id
    ∧ st'.log = st.log
    ∧ st'.last_log_id = st.last_log_id
    ∧ st'.effective_membership = st.effective_membership := by
  unfold RaftCore.replicate_to_state_machine_if_needed at h
  split at h
  · obtain ⟨h1, h2⟩ := Prod.mk.injEq .. ▸ Option.some.injEq .. ▸ h
    subst h1
    exact ⟨rfl, rfl, rfl, rfl, rfl, rfl, rfl, rfl, rfl, rfl⟩
  · dsimp only at h
    split at h
    · exact absurd h (by simp)
    · obtain ⟨h1, h2⟩ := Prod.mk.injEq .. ▸ Option.some.injEq .. ▸ h
      subst h1
      exact ⟨rfl, rfl, rfl, rfl, rfl, rfl, rfl, rfl, rfl, rfl⟩

theorem replicate_none_iff (st : RaftCore) :
    st.replicate_to_state_machine_if_needed = none ↔
      (optLeb st.committed st.last_applied = false
       ∧ get_log_entries st.log (next_index st.last_applied) (next_index st.committed) = []) := by
  unfold RaftCore.replicate_to_state_machine_if_needed
  by_cases hle : optLeb st.committed st.last_applied = true
  · rw [if_pos hle]
    simp [hle]
  · rw [if_neg hle]
    dsimp only
    constructor
    · intro h
      split at h
      · refine ⟨Bool.not_eq_true _ ▸ hle, ?_⟩
        next hg => exact List.getLast?_eq_none_iff.mp hg
      · exact absurd h (by simp)
    · intro ⟨_, h2⟩
      rw [List.getLast?_eq_none_iff.mpr h2]

theorem utl_fields (st : RaftCore) (msg : AppendEntriesRequest) :
    (st.update_term_leader msg).1.committed = st.committed
    ∧ (st.update_term_leader msg).1.log = st.log
    ∧ (st.update_term_leader msg).1.last_log_id = st.last_log_id
    ∧ (st.update_term_leader msg).1.last_applied = st.last_applied
    ∧ (st.update_term_leader msg).1.sm = st.sm
    ∧ (st.update_term_leader msg).1.effective_membership = st.effective_membership
    ∧ (st.update_term_leader msg).1.id = st.id
    ∧ (st.update_term_leader msg).1.current_leader = some msg.leader_id
    ∧ (st.update_term_leader msg).1.current_term
        = (if st.current_term < msg.term then msg.term else st.current_term)
    ∧ (st.update_term_leader msg).1.voted_for
        = (if st.current_term < msg.term then none else st.voted_for) := by
  unfold RaftCore.update_term_leader RaftCore.update_next_election_timeout
    RaftCore.update_current_term
  dsimp only
  by_cases hb : st.current_term < msg.term
  · rw [if_pos hb]
    dsimp only
    split <;> exact ⟨rfl, rfl, rfl, rfl, rfl, rfl, rfl, rfl, rfl, rfl⟩
  · rw [if_neg hb]
    dsimp only
    split <;> exact ⟨rfl, rfl, rfl, rfl, rfl, rfl, rfl, rfl, rfl, rfl⟩

theorem utl_events (st : RaftCore) (msg : AppendEntriesRequest) :
    ∀ ev ∈ (st.update_term_leader msg).2,
      (∃ t v, ev = Event.saveHardState t v) ∨ ev = Event.metrics := by
  unfold RaftCore.update_term_leader RaftCore.update_next_election_timeout
    RaftCore.update_current_term
  dsimp only
  intro ev hev
  by_cases hb : st.current_term < msg.term
  · rw [if_pos hb] at hev
    dsimp only at hev
    split at hev <;> simp at hev <;>
      first
        | exact Or.inr hev
        | exact Or.inl ⟨_, _, hev⟩
        | (rcases hev with h | h
           · exact Or.inl ⟨_, _, h⟩
           · exact Or.inr h)
  · rw [if_neg hb] at hev
    dsimp only at hev
    split at hev <;> simp at hev
    exact Or.inr hev

theorem dlim_congr (st st' : RaftCore) (p : Option LogId)
    (hc : st.committed = st'.committed) (hl : st.log = st'.log) :
    does_log_id_match st p = does_log_id_match st' p := by
  unfold does_log_id_match
  rw [hc, hl]

theorem dlim_none_iff (st : RaftCore) (p : Option LogId) :
    (does_log_id_match st p).1 = none ↔
      (p = none ∨ optLeb p st.committed = true
       ∨ ∃ x e, p = some x ∧ try_get_log_entry st.log x.index = some e ∧ e.log_id = x) := by
  cases p with
  | none => simp [does_log_id_match]
  | some x =>
    unfold does_log_id_match
    dsimp only
    by_cases hc : optLeb (some x) st.committed = true
    · rw [if_pos hc]
      simp [hc]
    · rw [if_neg hc]
      cases hg : try_get_log_entry st.log x.index with
      | none => simp [hc, hg]
      | some localE =>
        dsimp only
        by_cases heq : localE.log_id = x
        · rw [if_pos heq]
          simp only [true_iff]
          exact Or.inr (Or.inr ⟨x, localE, rfl, hg, heq⟩)
        · rw [if_neg heq]
          simp only [reduceCtorEq, false_iff, not_or]
          refine ⟨by simp, hc, ?_⟩
          rintro ⟨x', e', hx', hg', hl'⟩
          obtain rfl : x' = x := by injection hx' with h3; exact h3.symm
          rw [hg] at hg'
          obtain rfl : e' = localE := by injection hg' with h2; exact h2.symm
          exact heq hl'

theorem dlim_some_eq (st : RaftCore) (p : Option LogId) (x : LogId)
    (h : (does_log_id_match st p).1 = some x) : p = some x := by
  cases p with
  | none => simp [does_log_id_match] at h
  | some y =>
    unfold does_log_id_match at h
    dsimp only at h
    by_cases hc : optLeb (some y) st.committed = true
    · rw [if_pos hc] at h; simp at h
    · rw [if_neg hc] at h
      cases hg : try_get_log_entry st.log y.index with
      | none => rw [hg] at h; injection h with h2; rw [h2]
      | some localE =>
        rw [hg] at h
        dsimp only at h
        by_cases heq : localE.log_id = y
        · rw [if_pos heq] at h; simp at h
        · rw [if_neg heq] at h; injection h with h2; rw [h2]

theorem dlim_events (st : RaftCore) (p : Option LogId) :
    ∀ ev ∈ (does_log_id_match st p).2, ∃ i, ev = Event.tryGet i := by
  intro ev hev
  cases p with
  | none => simp [does_log_id_match] at hev
  | some x =>
    unfold does_log_id_match at hev
    dsimp only at hev
    by_cases hc : optLeb (some x) st.committed = true
    · rw [if_pos hc] at hev; simp at hev
    · rw [if_neg hc] at hev
      cases hg : try_get_log_entry st.log x.index with
      | none => rw [hg] at hev; simp at hev; exact ⟨_, hev⟩
      | some localE =>
        rw [hg] at hev
        dsimp only at hev
        by_cases heq : localE.log_id = x
        · rw [if_pos heq] at hev; simp at hev; exact ⟨_, hev⟩
        · rw [if_neg heq] at hev; simp at hev; exact ⟨_, hev⟩

theorem skip_spec (st : RaftCore) (es : List Entry) :
    (skip_matching_entries st es).1.1 = (es.takeWhile (entry_matches st)).length
    ∧ (skip_matching_entries st es).1.2 = es.dropWhile (entry_matches st) := by
  induction es with
  | nil => exact ⟨rfl, rfl⟩
  | cons e rest ih =>
    unfold skip_matching_entries
    dsimp only
    by_cases hc : optLeb (some e.log_id) st.committed = true
    · have hm : entry_matches st e = true := by
        unfold entry_matches
        rw [hc]
        rfl
      rw [if_pos hc]
      dsimp only
      rw [List.takeWhile_cons_of_pos hm, List.dropWhile_cons_of_pos hm]
      exact ⟨by rw [ih.1]; rfl, ih.2⟩
    · have hcf : optLeb (some e.log_id) st.committed = false := by
        simp only [Bool.not_eq_true] at hc
        exact hc
      rw [if_neg hc]
      cases hg : try_get_log_entry st.log e.log_id.index with
      | none =>
        have hm : entry_matches st e = false := by
          unfold entry_matches
          rw [hcf, hg]
          rfl
        dsimp only
        rw [List.takeWhile_cons_of_neg (by simp [hm]), List.dropWhile_cons_of_neg (by simp [hm])]
        exact ⟨rfl, rfl⟩
      | some localE =>
        dsimp only
        by_cases heq : localE.log_id = e.log_id
        · have hm : entry_matches st e = true := by
            unfold entry_matches
            rw [hcf, hg]
            simp [heq]
          rw [if_pos heq]
          dsimp only
          rw [List.takeWhile_cons_of_pos hm, List.dropWhile_cons_of_pos hm]
          exact ⟨by rw [ih.1]; rfl, ih.2⟩
        · have hm : entry_matches st e = false := by
            unfold entry_matches
            rw [hcf, hg]
            simp [heq]
          rw [if_neg heq]
          rw [List.takeWhile_cons_of_neg (by simp [hm]), List.dropWhile_cons_of_neg (by simp [hm])]
          exact ⟨rfl, rfl⟩

theorem skip_events (st : RaftCore) (es : List Entry) :
    ∀ ev ∈ (skip_matching_entries st es).2, ∃ i, ev = Event.tryGet i := by
  induction es with
  | nil => intro ev hev; simp [skip_matching_entries] at hev
  | cons e rest ih =>
    intro ev hev
    unfold skip_matching_entries at hev
    dsimp only at hev
    by_cases hc : optLeb (some e.log_id) st.committed = true
    · rw [if_pos hc] at hev
      exact ih ev hev
    · rw [if_neg hc] at hev
      cases hg : try_get_log_entry st.log e.log_id.index with
      | none => rw [hg] at hev; simp at hev; exact ⟨_, hev⟩
      | some localE =>
        rw [hg] at hev
        dsimp only at hev
        by_cases heq : localE.log_id = e.log_id
        · rw [if_pos heq] at hev
          dsimp only at hev
          rcases List.mem_cons.mp hev with h | h
          · exact ⟨_, h⟩
          · exact ih ev h
        · rw [if_neg heq] at hev
          simp at hev
          exact ⟨_, hev⟩

theorem fad_fields (st : RaftCore) (es : List Entry) :
    (st.find_and_delete_conflict_logs es).1.current_term = st.current_term
    ∧ (st.find_and_delete_conflict_logs es).1.voted_for = st.voted_for
    ∧ (st.find_and_delete_conflict_logs es).1.committed = st.committed
    ∧ (st.find_and_delete_conflict_logs es).1.last_applied = st.last_applied
    ∧ (st.find_and_delete_conflict_logs es).1.sm = st.sm
    ∧ (st.find_and_delete_conflict_logs es).1.id = st.id
    ∧ (st.find_and_delete_conflict_logs es).1.current_leader = st.current_leader
    ∧ (st.find_and_delete_conflict_logs es).1.target_state = st.target_state
    ∧ (st.find_and_delete_conflict_logs es).1.election_tick = st.election_tick := by
  rcases fad_cases st es with ⟨heq, _⟩ | ⟨e0, _, heq, _⟩ <;> rw [heq]
  · exact ⟨rfl, rfl, rfl, rfl, rfl, rfl, rfl, rfl, rfl⟩
  · obtain ⟨h1, h2, h3, h4, -, -, h7, -, -⟩ := dcls_fields st e0.log_id
    exact ⟨h1, h2, h3, h4, (dcls_fields st e0.log_id).2.2.2.2.2.2.2.1,
      (dcls_fields st e0.log_id).2.2.2.2.2.2.2.2.1, (dcls_fields st e0.log_id).2.2.2.2.1,
      (dcls_fields st e0.log_id).2.2.2.2.2.1, (dcls_fields st e0.log_id).2.2.2.2.2.2.1⟩

theorem append_log_fields2 (st : RaftCore) (es : List Entry) :
    (st.append_log_entries es).1.current_term = st.current_term
    ∧ (st.append_log_entries es).1.voted_for = st.voted_for
    ∧ (st.append_log_entries es).1.committed = st.committed
    ∧ (st.append_log_entries es).1.last_applied = st.last_applied
    ∧ (st.append_log_entries es).1.sm = st.sm
    ∧ (st.append_log_entries es).1.id = st.id
    ∧ (st.append_log_entries es).1.current_leader = st.current_leader
    ∧ (st.append_log_entries es).1.target_state = st.target_state
    ∧ (st.append_log_entries es).1.election_tick = st.election_tick := by
  cases es with
  | nil =>
    rw [append_log_nil]
    exact ⟨rfl, rfl, rfl, rfl, rfl, rfl, rfl, rfl, rfl⟩
  | cons e0 rest =>
    obtain ⟨lastE, -, heq⟩ := append_log_result st e0 rest
    rw [heq]
    exact ⟨rfl, rfl, rfl, rfl, rfl, rfl, rfl, rfl, rfl⟩

theorem append_apply_mismatch_eq (st : RaftCore) (p : Option LogId) (es : List Entry)
    (c : Option LogId) (x : LogId) (hm : (does_log_id_match st p).1 = some x) :
    st.append_apply_log_entries p es c =
      some ({ term := st.current_term, success := false, conflict := true },
        (match st.last_log_id with
         | some last =>
           if x.index ≤ last.index then st.delete_conflict_logs_since x else (st, [])
         | none => (st, [])).1,
        (does_log_id_match st p).2 ++
        (match st.last_log_id with
         | some last =>
           if x.index ≤ last.index then st.delete_conflict_logs_since x else (st, [])
         | none => (st, [])).2) := by
  unfold RaftCore.append_apply_log_entries
  dsimp only
  rw [hm]
  dsimp only
  cases hll : st.last_log_id with
  | none => rfl
  | some last =>
    dsimp only
    by_cases hle : x.index ≤ last.index
    · simp only [if_pos hle]
      rfl
    · simp only [if_neg hle]

theorem append_apply_match_eq (st : RaftCore) (p : Option LogId) (es : List Entry)
    (c : Option LogId) (hm : (does_log_id_match st p).1 = none) :
    st.append_apply_log_entries p es c =
      (match ({ ((st.find_and_delete_conflict_logs
            (skip_matching_entries st es).1.2).1.append_log_entries
              (skip_matching_entries st es).1.2).1 with
          committed := c } : RaftCore).replicate_to_state_machine_if_needed with
       | none => none
       | some (st4, tr4) =>
         some ({ term := st4.current_term, success := true, conflict := false },
               st4,
               (does_log_id_match st p).2 ++ (skip_matching_entries st es).2 ++
               (st.find_and_delete_conflict_logs (skip_matching_entries st es).1.2).2 ++
               ((st.find_and_delete_conflict_logs
                   (skip_matching_entries st es).1.2).1.append_log_entries
                 (skip_matching_entries st es).1.2).2 ++ tr4 ++ [Event.metrics])) := by
  unfold RaftCore.append_apply_log_entries
  dsimp only
  rw [hm]

theorem append_apply_success (st : RaftCore) (p : Option LogId) (es : List Entry)
    (c : Option LogId) (resp : AppendEntriesResponse) (st' : RaftCore) (tr : List Event)
    (h : st.append_apply_log_entries p es c = some (resp, st', tr))
    (hs : resp.success = true) :
    (does_log_id_match st p).1 = none
    ∧ st'.committed = c
    ∧ st'.current_term = st.current_term
    ∧ st'.voted_for = st.voted_for
    ∧ resp = { term := st.current_term, success := true, conflict := false } := by
  cases hm : (does_log_id_match st p).1 with
  | some x =>
    rw [append_apply_mismatch_eq st p es c x hm] at h
    simp only [Option.some.injEq, Prod.mk.injEq] at h
    rw [← h.1] at hs
    simp at hs
  | none =>
    rw [append_apply_match_eq st p es c hm] at h
    cases hr : ({ ((st.find_and_delete_conflict_logs
          (skip_matching_entries st es).1.2).1.append_log_entries
            (skip_matching_entries st es).1.2).1 with
        committed := c } : RaftCore).replicate_to_state_machine_if_needed with
    | none => rw [hr] at h; exact absurd h (by simp)
    | some pair =>
      obtain ⟨st4, tr4⟩ := pair
      rw [hr] at h
      dsimp only at h
      simp only [Option.some.injEq, Prod.mk.injEq] at h
      obtain ⟨h1, h2, h3⟩ := h
      obtain ⟨f1, f2, f3, -, -, -, -, -, -, -⟩ := replicate_some_fields _ _ _ hr
      have hterm4 : st4.current_term = st.current_term := by
        refine f1.trans ?_
        exact (append_log_fields2 _ _).1.trans (fad_fields _ _).1
      refine ⟨rfl, ?_, ?_, ?_, ?_⟩
      · rw [← h2]
        exact f3
      · rw [← h2]
        exact hterm4
      · rw [← h2]
        exact f2.trans ((append_log_fields2 _ _).2.1.trans (fad_fields _ _).2.1)
      · rw [← h1, hterm4]

theorem handle_nonstale_eq (st : RaftCore) (msg : AppendEntriesRequest)
    (h : ¬ msg.term < st.current_term) :
    st.handle_append_entries_request msg =
      (match (st.update_term_leader msg).1.append_apply_log_entries msg.prev_log_id msg.entries
          (valid_committed_of msg) with
       | none => none
       | some (resp, st5, tr5) => some (resp, st5, (st.update_term_leader msg).2 ++ tr5)) := by
  unfold RaftCore.handle_append_entries_request
  rw [if_neg h]

/-! ## Claim theorems -/

/-- C8: for every request with `request.term < current_term`, the handler
returns `{term: current_term, success: false, conflict: false}` and leaves
the whole node state (hence every NodeCore field and the stored log)
unchanged, and makes no storage call (the recorded trace is empty).
Openraft append_entries.rs lines 33-41. -/
theorem C8_stale_term_frame (st : RaftCore) (msg : AppendEntriesRequest)
    (h : msg.term < st.current_term) :
    st.handle_append_entries_request msg =
      some ({ term := st.current_term, success := false, conflict := false }, st, []) := by
  unfold RaftCore.handle_append_entries_request
  rw [if_pos h]

/-- Witness for C8 at spec scenario 3: a node at term 5 receiving a stale
request at term 4 answers `{5, false, false}` and is left untouched. -/
theorem C8_stale_term_frame_witness :
    st_term5.handle_append_entries_request req_stale =
      some ({ term := 5, success := false, conflict := false }, st_term5, []) :=
  C8_stale_term_frame st_term5 req_stale (by decide)

/-- C1 (code-bug evidence): from the empty start state, the reachable
sequence "replicate and commit `(1,1) (1,2)`, then handle a heartbeat with
`prev_log_id = None` and `leader_commit = None`" makes `committed` drop from
`Some (1,2)` back to `None`: the assignment `self.committed = committed`
(openraft append_entries.rs line 248) is unconditional, not guarded by
"greater than current". -/
theorem C1_committed_decreases :
    (st_empty.handle_append_entries_request req_fill).map
        (fun r => (r.1.success, r.2.1.committed))
      = some (true, some { term := 1, index := 2 })
    ∧ ((st_empty.handle_append_entries_request req_fill).bind
        (fun r => r.2.1.handle_append_entries_request req_none_heartbeat)).map
        (fun r => (r.1.success, r.2.1.committed))
      = some (true, none) :=
  ⟨rfl, rfl⟩

/-- C2: on every success response the new `committed` equals
`min(request.leader_commit, entries.last().map(log_id).or(prev_log_id))`
(openraft append_entries.rs lines 61-62 and 248); consequently it never
exceeds the last position covered by the request, and a heartbeat (empty
`entries`) clamps the candidate to `prev_log_id`. -/
theorem C2_commit_candidate (st : RaftCore) (msg : AppendEntriesRequest)
    (resp : AppendEntriesResponse) (st' : RaftCore) (tr : List Event)
    (h : st.handle_append_entries_request msg = some (resp, st', tr))
    (hs : resp.success = true) :
    st'.committed = optMin msg.leader_commit
        ((msg.entries.getLast?.map (fun x => some x.log_id)).getD msg.prev_log_id)
    ∧ optLeb st'.committed
        ((msg.entries.getLast?.map (fun x => some x.log_id)).getD msg.prev_log_id) = true
    ∧ (msg.entries = [] → st'.committed = optMin msg.leader_commit msg.prev_log_id) := by
  have hcc : st'.committed = valid_committed_of msg := by
    by_cases hst : msg.term < st.current_term
    · unfold RaftCore.handle_append_entries_request at h
      rw [if_pos hst] at h
      simp only [Option.some.injEq, Prod.mk.injEq] at h
      rw [← h.1] at hs
      simp at hs
    · rw [handle_nonstale_eq st msg hst] at h
      cases ha : (st.update_term_leader msg).1.append_apply_log_entries msg.prev_log_id
          msg.entries (valid_committed_of msg) with
      | none => rw [ha] at h; exact absurd h (by simp)
      | some trip =>
        obtain ⟨resp2, st5, tr5⟩ := trip
        rw [ha] at h
        dsimp only at h
        simp only [Option.some.injEq, Prod.mk.injEq] at h
        obtain ⟨hr2, hs5, -⟩ := h
        have hsf := append_apply_success _ _ _ _ _ _ _ ha (by rw [hr2]; exact hs)
        rw [← hs5]
        exact hsf.2.1
  refine ⟨hcc, ?_, ?_⟩
  · rw [hcc]
    exact optMin_leb_right _ _
  · intro he
    rw [hcc]
    simp [valid_committed_of, he]

/-- Witness for C2 at spec scenario 1: the first replication of `(1,1)` to
an empty node succeeds, and the new `committed` is
`min(None, Some (1,1)) = None`. -/
theorem C2_commit_candidate_witness :
    st_after_first.committed = optMin req_first.leader_commit
        ((req_first.entries.getLast?.map (fun x => some x.log_id)).getD req_first.prev_log_id)
    ∧ optLeb st_after_first.committed
        ((req_first.entries.getLast?.map (fun x => some x.log_id)).getD
          req_first.prev_log_id) = true
    ∧ (req_first.entries = [] →
        st_after_first.committed = optMin req_first.leader_commit req_first.prev_log_id) :=
  C2_commit_candidate st_empty req_first { term := 1, success := true, conflict := false }
    st_after_first tr_after_first (by rfl) rfl

theorem append_apply_term_voted (st : RaftCore) (p : Option LogId) (es : List Entry)
    (c : Option LogId) (resp : AppendEntriesResponse) (st' : RaftCore) (tr : List Event)
    (h : st.append_apply_log_entries p es c = some (resp, st', tr)) :
    st'.current_term = st.current_term ∧ st'.voted_for = st.voted_for := by
  cases hm : (does_log_id_match st p).1 with
  | some x =>
    rw [append_apply_mismatch_eq st p es c x hm] at h
    simp only [Option.some.injEq, Prod.mk.injEq] at h
    obtain ⟨-, h2, -⟩ := h
    rw [← h2]
    cases hll : st.last_log_id with
    | none => exact ⟨rfl, rfl⟩
    | some last =>
      dsimp only
      by_cases hle : x.index ≤ last.index
      · rw [if_pos hle]
        exact ⟨(dcls_fields st x).1, (dcls_fields st x).2.1⟩
      · rw [if_neg hle]
        exact ⟨rfl, rfl⟩
  | none =>
    have hs : resp.success = true := by
      rw [append_apply_match_eq st p es c hm] at h
      cases hr : ({ ((st.find_and_delete_conflict_logs
            (skip_matching_entries st es).1.2).1.append_log_entries
              (skip_matching_entries st es).1.2).1 with
          committed := c } : RaftCore).replicate_to_state_machine_if_needed with
      | none => rw [hr] at h; exact absurd h (by simp)
      | some pair =>
        obtain ⟨st4, tr4⟩ := pair
        rw [hr] at h
        dsimp only at h
        simp only [Option.some.injEq, Prod.mk.injEq] at h
        rw [← h.1]
    have hsf := append_apply_success st p es c resp st' tr h hs
    exact ⟨hsf.2.2.1, hsf.2.2.2.1⟩

theorem handle_step_term (st : RaftCore) (msg : AppendEntriesRequest)
    (resp : AppendEntriesResponse) (st' : RaftCore) (tr : List Event)
    (h : st.handle_append_entries_request msg = some (resp, st', tr)) :
    st.current_term ≤ st'.current_term
    ∧ (st.current_term < st'.current_term → st'.voted_for = none)
    ∧ (st'.current_term = st.current_term → st'.voted_for = st.voted_for) := by
  by_cases hst : msg.term < st.current_term
  · unfold RaftCore.handle_append_entries_request at h
    rw [if_pos hst] at h
    simp only [Option.some.injEq, Prod.mk.injEq] at h
    obtain ⟨-, h2, -⟩ := h
    rw [← h2]
    exact ⟨Nat.le_refl _, fun hlt => absurd hlt (Nat.lt_irrefl _), fun _ => rfl⟩
  · rw [handle_nonstale_eq st msg hst] at h
    cases ha : (st.update_term_leader msg).1.append_apply_log_entries msg.prev_log_id
        msg.entries (valid_committed_of msg) with
    | none => rw [ha] at h; exact absurd h (by simp)
    | some trip =>
      obtain ⟨resp2, st5, tr5⟩ := trip
      rw [ha] at h
      dsimp only at h
      simp only [Option.some.injEq, Prod.mk.injEq] at h
      obtain ⟨-, h5, -⟩ := h
      obtain ⟨hterm, hvoted⟩ := append_apply_term_voted _ _ _ _ _ _ _ ha
      obtain ⟨-, -, -, -, -, -, -, -, hutlt, hutlv⟩ := utl_fields st msg
      rw [← h5, hterm, hvoted, hutlt, hutlv]
      by_cases hb : st.current_term < msg.term
      · rw [if_pos hb, if_pos hb]
        exact ⟨Nat.le_of_lt hb, fun _ => rfl,
          fun he => absurd (he ▸ hb) (Nat.lt_irrefl _)⟩
      · rw [if_neg hb, if_neg hb]
        exact ⟨Nat.le_refl _, fun hlt => absurd hlt (Nat.lt_irrefl _), fun _ => rfl⟩

/-- C6: over any sequence of handled requests `current_term` never
decreases, and in each handled request `voted_for` is cleared exactly when
`current_term` strictly increases and is untouched when the term is
unchanged (openraft append_entries.rs lines 33-41 and 68-72; the body of
`update_current_term` is modelled from spec section 4.1 Phase 3). -/
theorem C6_term_monotonicity (st : RaftCore) (reqs : List AppendEntriesRequest)
    (st' : RaftCore) (h : run_requests st reqs = some st') :
    st.current_term ≤ st'.current_term
    ∧ (∀ s msg r s1 trc, RaftCore.handle_append_entries_request s msg = some (r, s1, trc) →
        s.current_term ≤ s1.current_term
        ∧ (s.current_term < s1.current_term → s1.voted_for = none)
        ∧ (s1.current_term = s.current_term → s1.voted_for = s.voted_for)) := by
  constructor
  · induction reqs generalizing st with
    | nil =>
      unfold run_requests at h
      injection h with h
      rw [h]
    | cons r rs ih =>
      unfold run_requests at h
      cases hh : st.handle_append_entries_request r with
      | none => rw [hh] at h; exact absurd h (by simp)
      | some trip =>
        obtain ⟨r1, st1, tr1⟩ := trip
        rw [hh] at h
        dsimp only at h
        exact Nat.le_trans (handle_step_term st r r1 st1 tr1 hh).1 (ih st1 h)
  · intro s msg r s1 trc hstep
    exact handle_step_term s msg r s1 trc hstep

/-- Witness for C6: the two-request reachable sequence "fill `(1,1) (1,2)`
then heartbeat" from the empty node keeps `current_term` monotone, and the
per-request clearing rule holds of every handled request. -/
theorem C6_term_monotonicity_witness :
    st_empty.current_term ≤ st_after_fill.current_term
    ∧ (∀ s msg r s1 trc, RaftCore.handle_append_entries_request s msg = some (r, s1, trc) →
        s.current_term ≤ s1.current_term
        ∧ (s.current_term < s1.current_term → s1.voted_for = none)
        ∧ (s1.current_term = s.current_term → s1.voted_for = s.voted_for)) :=
  C6_term_monotonicity st_empty [req_fill, req_none_heartbeat]
    { st_after_fill with committed := none, election_tick := 2 } (by rfl)
    |>.imp_left (fun h => h)

theorem mem_dcls_events (st : RaftCore) (start : LogId) (ev : Event)
    (h : ev ∈ (st.delete_conflict_logs_since start).2) :
    ev = Event.deleteSince start ∨ ev = Event.getLogState ∨ ev = Event.getMembership
    ∨ ∃ m, ev = Event.updateMembership m := by
  rw [dcls_events] at h
  simp at h
  rcases h with h | h | h | h
  · exact Or.inl h
  · exact Or.inr (Or.inl h)
  · exact Or.inr (Or.inr (Or.inl h))
  · exact Or.inr (Or.inr (Or.inr ⟨_, h⟩))

/-- C3: with the term gate passed, the consistency check succeeds iff
`prev_log_id` is `None`, or lies at or below `committed`, or the local entry
at its index carries the same log id (openraft append_entries.rs lines
300-329); on failure the handler truncates from `prev_log_id.index` exactly
when that index is within the local log, replies
`{term, success: false, conflict: true}`, keeps `committed` unchanged, and
appends nothing (lines 204-227). -/
theorem C3_consistency_check (st : RaftCore) (msg : AppendEntriesRequest)
    (hterm : ¬ msg.term < st.current_term) :
    ((does_log_id_match st msg.prev_log_id).1 = none ↔
      (msg.prev_log_id = none ∨ optLeb msg.prev_log_id st.committed = true
       ∨ ∃ x e, msg.prev_log_id = some x
           ∧ try_get_log_entry st.log x.index = some e ∧ e.log_id = x))
    ∧ (∀ x, (does_log_id_match st msg.prev_log_id).1 = some x →
        ∃ st' tr,
          st.handle_append_entries_request msg
            = some ({ term := st'.current_term, success := false, conflict := true }, st', tr)
          ∧ msg.prev_log_id = some x
          ∧ st'.committed = st.committed
          ∧ st'.log = (match st.last_log_id with
              | some last =>
                if x.index ≤ last.index then store_delete_since st.log x else st.log
              | none => st.log)
          ∧ (∀ es, Event.appendLog es ∉ tr)
          ∧ ((∃ s, Event.deleteSince s ∈ tr)
              ↔ ∃ last, st.last_log_id = some last ∧ x.index ≤ last.index)) := by
  constructor
  · exact dlim_none_iff st msg.prev_log_id
  · intro x hm
    have hprev := dlim_some_eq st msg.prev_log_id x hm
    obtain ⟨u1, u2, u3, -, -, -, -, -, -, -⟩ := utl_fields st msg
    have hm4 : (does_log_id_match (st.update_term_leader msg).1 msg.prev_log_id).1 = some x := by
      rw [dlim_congr (st.update_term_leader msg).1 st msg.prev_log_id u1 u2]
      exact hm
    have heq := append_apply_mismatch_eq (st.update_term_leader msg).1 msg.prev_log_id
      msg.entries (valid_committed_of msg) x hm4
    rw [handle_nonstale_eq st msg hterm, heq]
    dsimp only
    rw [u3]
    cases hll : st.last_log_id with
    | none =>
      dsimp only
      refine ⟨(st.update_term_leader msg).1,
        (st.update_term_leader msg).2 ++
          ((does_log_id_match (st.update_term_leader msg).1 msg.prev_log_id).2 ++ []),
        rfl, hprev, u1, u2, ?_, ?_⟩
      · intro es hmem
        rcases List.mem_append.mp hmem with hmem | hmem
        · rcases utl_events st msg _ hmem with ⟨t, v, hev⟩ | hev <;> simp at hev
        · rw [List.append_nil] at hmem
          obtain ⟨i, hev⟩ := dlim_events _ _ _ hmem
          simp at hev
      · constructor
        · rintro ⟨s, hmem⟩
          rcases List.mem_append.mp hmem with hmem | hmem
          · rcases utl_events st msg _ hmem with ⟨t, v, hev⟩ | hev <;> simp at hev
          · rw [List.append_nil] at hmem
            obtain ⟨i, hev⟩ := dlim_events _ _ _ hmem
            simp at hev
        · rintro ⟨last, hlast, -⟩
          simp at hlast
    | some last =>
      dsimp only
      by_cases hle : x.index ≤ last.index
      · rw [if_pos hle]
        refine ⟨((st.update_term_leader msg).1.delete_conflict_logs_since x).1,
          (st.update_term_leader msg).2 ++
            ((does_log_id_match (st.update_term_leader msg).1 msg.prev_log_id).2 ++
             ((st.update_term_leader msg).1.delete_conflict_logs_since x).2),
          ?_, hprev, ?_, ?_, ?_, ?_⟩
        · rw [(dcls_fields (st.update_term_leader msg).1 x).1]
        · exact ((dcls_fields (st.update_term_leader msg).1 x).2.2.1).trans u1
        · rw [if_pos hle]
          rw [(dcls_fields (st.update_term_leader msg).1 x).2.2.2.2.2.2.2.2.2.1, u2]
        · intro es hmem
          rcases List.mem_append.mp hmem with hmem | hmem
          · rcases utl_events st msg _ hmem with ⟨t, v, hev⟩ | hev <;> simp at hev
          · rcases List.mem_append.mp hmem with hmem | hmem
            · obtain ⟨i, hev⟩ := dlim_events _ _ _ hmem
              simp at hev
            · rcases mem_dcls_events _ _ _ hmem with hev | hev | hev | ⟨m, hev⟩ <;>
                simp at hev
        · constructor
          · intro
            exact ⟨last, rfl, hle⟩
          · intro
            refine ⟨x, ?_⟩
            rw [List.mem_append, List.mem_append]
            refine Or.inr (Or.inr ?_)
            rw [dcls_events]
            simp
      · rw [if_neg hle]
        refine ⟨(st.update_term_leader msg).1,
          (st.update_term_leader msg).2 ++
            ((does_log_id_match (st.update_term_leader msg).1 msg.prev_log_id).2 ++ []),
          rfl, hprev, u1, ?_, ?_, ?_⟩
        · rw [if_neg hle]
          exact u2
        · intro es hmem
          rcases List.mem_append.mp hmem with hmem | hmem
          · rcases utl_events st msg _ hmem with ⟨t, v, hev⟩ | hev <;> simp at hev
          · rw [List.append_nil] at hmem
            obtain ⟨i, hev⟩ := dlim_events _ _ _ hmem
            simp at hev
        · constructor
          · rintro ⟨s, hmem⟩
            rcases List.mem_append.mp hmem with hmem | hmem
            · rcases utl_events st msg _ hmem with ⟨t, v, hev⟩ | hev <;> simp at hev
            · rw [List.append_nil] at hmem
              obtain ⟨i, hev⟩ := dlim_events _ _ _ hmem
              simp at hev
          · rintro ⟨last', hlast', hle'⟩
            injection hlast' with hlast'
            exact absurd (hlast' ▸ hle') hle

/-- Witness for C3 at spec scenario 4: node log `(1,1) (1,2) (2,3)` with
`committed = (1,2)`, request predecessor `(2,5)` beyond the log: the check
fails, the reply is a conflict, and no truncation happens. -/
theorem C3_consistency_check_witness :
    ((does_log_id_match st_conflict3 req_too_short.prev_log_id).1 = none ↔
      (req_too_short.prev_log_id = none
       ∨ optLeb req_too_short.prev_log_id st_conflict3.committed = true
       ∨ ∃ x e, req_too_short.prev_log_id = some x
           ∧ try_get_log_entry st_conflict3.log x.index = some e ∧ e.log_id = x))
    ∧ (∀ x, (does_log_id_match st_conflict3 req_too_short.prev_log_id).1 = some x →
        ∃ st' tr,
          st_conflict3.handle_append_entries_request req_too_short
            = some ({ term := st'.current_term, success := false, conflict := true }, st', tr)
          ∧ req_too_short.prev_log_id = some x
          ∧ st'.committed = st_conflict3.committed
          ∧ st'.log = (match st_conflict3.last_log_id with
              | some last =>
                if x.index ≤ last.index then store_delete_since st_conflict3.log x
                else st_conflict3.log
              | none => st_conflict3.log)
          ∧ (∀ es, Event.appendLog es ∉ tr)
          ∧ ((∃ s, Event.deleteSince s ∈ tr)
              ↔ ∃ last, st_conflict3.last_log_id = some last ∧ x.index ≤ last.index)) :=
  C3_consistency_check st_conflict3 req_too_short (by decide)

/-- C9 (counterexample): a node that believes `(1,5)` committed but has an
empty log accepts a heartbeat whose `prev_log_id (1,2)` lies below
`committed`; on the apply path the store returns an empty slice for the
range and the handler panics — the `unwrap()` on `entries.last()` at
openraft append_entries.rs line 393 (`none` models the panic). -/
theorem C9_panic_on_empty_slice :
    st_commit_beyond_log.handle_append_entries_request req_hb_below_commit = none
    ∧ get_log_entries st_commit_beyond_log.log
        (next_index st_commit_beyond_log.last_applied)
        (next_index (some { term := 1, index := 2 })) = [] :=
  ⟨rfl, rfl⟩

/-- C9 (amended): the apply step panics exactly when `committed >
last_applied` and the store's slice for `(last_applied, committed]` is
empty; whenever the store honours its contract of returning a non-empty
slice, the handler does not panic there (openraft append_entries.rs lines
376-408). -/
theorem C9_replicate_panic_iff (st : RaftCore) :
    st.replicate_to_state_machine_if_needed = none ↔
      (optLeb st.committed st.last_applied = false
       ∧ get_log_entries st.log (next_index st.last_applied) (next_index st.committed) = []) :=
  replicate_none_iff st

/-- Witness for the amended C9 at a concrete state: the node of the
counterexample indeed satisfies both sides of the characterisation. -/
theorem C9_replicate_panic_iff_witness :
    st_commit_beyond_log.replicate_to_state_machine_if_needed = none ↔
      (optLeb st_commit_beyond_log.committed st_commit_beyond_log.last_applied = false
       ∧ get_log_entries st_commit_beyond_log.log
           (next_index st_commit_beyond_log.last_applied)
           (next_index st_commit_beyond_log.committed) = []) :=
  C9_replicate_panic_iff st_commit_beyond_log

theorem mem_le_getLast (l : List Entry) (h : entries_ascending l) (e : Entry) (he : e ∈ l) :
    ∃ lastE, l.getLast? = some lastE ∧ e.log_id.index ≤ lastE.log_id.index := by
  induction l with
  | nil => simp at he
  | cons a rest ih =>
    cases hres : rest with
    | nil =>
      subst hres
      simp at he
      refine ⟨a, rfl, ?_⟩
      rw [he]
    | cons b rest2 =>
      subst hres
      have htail : entries_ascending (b :: rest2) := (List.pairwise_cons.mp h).2
      rcases List.mem_cons.mp he with he1 | hmem
      · cases hL : (b :: rest2).getLast? with
        | none => simp at hL
        | some lastE =>
          have hlm : lastE ∈ b :: rest2 := List.mem_of_getLast?_eq_some hL
          refine ⟨lastE, by rw [List.getLast?_cons_cons, hL], ?_⟩
          rw [he1]
          exact Nat.le_of_lt ((List.pairwise_cons.mp h).1 lastE hlm)
      · obtain ⟨lastE, hL, hle⟩ := ih htail hmem
        exact ⟨lastE, by rw [List.getLast?_cons_cons, hL], hle⟩

/-- C10: after every `delete_conflict_logs_since`, `last_log_id` is
refreshed from the store's log state and `EffectiveMembership` is re-derived
from the durable log (falling back to the well-known initial value when the
store reports none), so that `EffectiveMembership.log_id ≤ last_log_id` is
restored (openraft append_entries.rs lines 104-124; `get_membership`,
`update_membership` and the initial membership are modelled from the
spec). -/
theorem C10_truncation_refresh (st : RaftCore) (start : LogId)
    (hasc : entries_ascending st.log) :
    (st.delete_conflict_logs_since start).1.last_log_id
        = get_log_state_last (store_delete_since st.log start)
    ∧ (st.delete_conflict_logs_since start).1.effective_membership
        = (get_membership (store_delete_since st.log start)).getD
            (EffectiveMembership.new_initial st.id)
    ∧ (st.delete_conflict_logs_since start).1.effective_membership.log_id.index
        ≤ opt_index (st.delete_conflict_logs_since start).1.last_log_id := by
  obtain ⟨-, -, -, -, -, -, -, -, -, -, hll, hmb⟩ := dcls_fields st start
  refine ⟨hll, hmb, ?_⟩
  rw [hll, hmb]
  cases hgm : get_membership (store_delete_since st.log start) with
  | none =>
    simp only [Option.getD_none]
    exact Nat.zero_le _
  | some m =>
    simp only [Option.getD_some]
    have hasc' : entries_ascending (store_delete_since st.log start) :=
      List.Pairwise.sublist (List.filter_sublist st.log) hasc
    obtain ⟨e, hmem, hfe⟩ := List.mem_filterMap.mp (List.mem_of_getLast?_eq_some hgm)
    have hid : m.log_id = e.log_id := by
      cases hp : e.payload with
      | blank => rw [hp] at hfe; simp at hfe
      | normal d => rw [hp] at hfe; simp at hfe
      | membership conf =>
        rw [hp] at hfe
        dsimp only at hfe
        injection hfe with hfe
        rw [← hfe]
    obtain ⟨lastE, hL, hle⟩ := mem_le_getLast _ hasc' e hmem
    unfold get_log_state_last
    rw [hL]
    show m.log_id.index ≤ lastE.log_id.index
    rw [hid]
    exact hle

/-- Witness for C10: truncating the scenario-5 node log
`(1,1) (1,2) (2,3)` from `(3,3)` leaves the membership invariant intact. -/
theorem C10_truncation_refresh_witness :
    (st_conflict3.delete_conflict_logs_since { term := 3, index := 3 }).1.last_log_id
        = get_log_state_last (store_delete_since st_conflict3.log { term := 3, index := 3 })
    ∧ (st_conflict3.delete_conflict_logs_since { term := 3, index := 3 }).1.effective_membership
        = (get_membership (store_delete_since st_conflict3.log { term := 3, index := 3 })).getD
            (EffectiveMembership.new_initial st_conflict3.id)
    ∧ (st_conflict3.delete_conflict_logs_since
          { term := 3, index := 3 }).1.effective_membership.log_id.index
        ≤ opt_index (st_conflict3.delete_conflict_logs_since
            { term := 3, index := 3 }).1.last_log_id :=
  C10_truncation_refresh st_conflict3 { term := 3, index := 3 }
    (by unfold entries_ascending; decide)

theorem replicate_events (st st' : RaftCore) (tr : List Event)
    (h : st.replicate_to_state_machine_if_needed = some (st', tr)) :
    ∀ ev ∈ tr, (∃ lo hi, ev = Event.getEntries lo hi)
      ∨ (∃ es2, ev = Event.applySM es2) ∨ ev = Event.metrics := by
  intro ev hev
  unfold RaftCore.replicate_to_state_machine_if_needed at h
  split at h
  · obtain ⟨-, h2⟩ := Prod.mk.injEq .. ▸ Option.some.injEq .. ▸ h
    rw [← h2] at hev
    simp at hev
  · dsimp only at h
    split at h
    · exact absurd h (by simp)
    · obtain ⟨-, h2⟩ := Prod.mk.injEq .. ▸ Option.some.injEq .. ▸ h
      rw [← h2] at hev
      simp at hev
      rcases hev with h | h | h
      · exact Or.inl ⟨_, _, h⟩
      · exact Or.inr (Or.inl ⟨_, h⟩)
      · exact Or.inr (Or.inr h)

theorem append_log_events (st : RaftCore) (es : List Entry) :
    ∀ ev ∈ (st.append_log_entries es).2,
      ev = Event.appendLog es ∨ ∃ m, ev = Event.updateMembership m := by
  intro ev hev
  cases es with
  | nil => rw [append_log_nil] at hev; simp at hev
  | cons e0 rest =>
    obtain ⟨lastE, -, heq⟩ := append_log_result st e0 rest
    rw [heq] at hev
    dsimp only at hev
    cases hconf : get_membership (e0 :: rest) with
    | none =>
      rw [hconf] at hev
      simp at hev
      exact Or.inl hev
    | some c =>
      rw [hconf] at hev
      simp at hev
      rcases hev with h | h
      · exact Or.inr ⟨_, h⟩
      · exact Or.inl h

theorem fad_events (st : RaftCore) (es : List Entry) :
    ∀ ev ∈ (st.find_and_delete_conflict_logs es).2,
      ∃ e0, es.head? = some e0 ∧
        (ev = Event.deleteSince e0.log_id ∨ ev = Event.getLogState ∨ ev = Event.getMembership
         ∨ ∃ m, ev = Event.updateMembership m) := by
  intro ev hev
  rcases fad_cases st es with ⟨heq, -⟩ | ⟨e0, hhead, heq, -⟩ <;> rw [heq] at hev
  · simp at hev
  · exact ⟨e0, hhead, mem_dcls_events _ _ _ hev⟩

theorem match_success (st : RaftCore) (p : Option LogId) (es : List Entry) (c : Option LogId)
    (resp : AppendEntriesResponse) (st' : RaftCore) (tr : List Event)
    (hm0 : (does_log_id_match st p).1 = none)
    (h : st.append_apply_log_entries p es c = some (resp, st', tr)) :
    resp.success = true := by
  rw [append_apply_match_eq st p es c hm0] at h
  cases hr : ({ ((st.find_and_delete_conflict_logs
        (skip_matching_entries st es).1.2).1.append_log_entries
          (skip_matching_entries st es).1.2).1 with
      committed := c } : RaftCore).replicate_to_state_machine_if_needed with
  | none => rw [hr] at h; exact absurd h (by simp)
  | some pair =>
    obtain ⟨st4, tr4⟩ := pair
    rw [hr] at h
    dsimp only at h
    simp only [Option.some.injEq, Prod.mk.injEq] at h
    rw [← h.1]

theorem append_apply_success_trace (st : RaftCore) (p : Option LogId) (es : List Entry)
    (c : Option LogId) (resp : AppendEntriesResponse) (st' : RaftCore) (tr : List Event)
    (h : st.append_apply_log_entries p es c = some (resp, st', tr))
    (hs : resp.success = true) :
    ∃ tr4,
      tr = (does_log_id_match st p).2 ++ (skip_matching_entries st es).2 ++
           (st.find_and_delete_conflict_logs (skip_matching_entries st es).1.2).2 ++
           ((st.find_and_delete_conflict_logs
               (skip_matching_entries st es).1.2).1.append_log_entries
             (skip_matching_entries st es).1.2).2 ++ tr4 ++ [Event.metrics]
      ∧ ({ ((st.find_and_delete_conflict_logs
              (skip_matching_entries st es).1.2).1.append_log_entries
                (skip_matching_entries st es).1.2).1 with
            committed := c } : RaftCore).replicate_to_state_machine_if_needed
          = some (st', tr4) := by
  have hm0 : (does_log_id_match st p).1 = none :=
    (append_apply_success st p es c resp st' tr h hs).1
  rw [append_apply_match_eq st p es c hm0] at h
  cases hr : ({ ((st.find_and_delete_conflict_logs
        (skip_matching_entries st es).1.2).1.append_log_entries
          (skip_matching_entries st es).1.2).1 with
      committed := c } : RaftCore).replicate_to_state_machine_if_needed with
  | none => rw [hr] at h; exact absurd h (by simp)
  | some pair =>
    obtain ⟨st4, tr4⟩ := pair
    rw [hr] at h
    dsimp only at h
    simp only [Option.some.injEq, Prod.mk.injEq] at h
    obtain ⟨-, h2, h3⟩ := h
    refine ⟨tr4, h3.symm, ?_⟩
    rw [h2]

theorem append_ev_unique (st : RaftCore) (p : Option LogId) (es : List Entry)
    (c : Option LogId) (resp : AppendEntriesResponse) (st' : RaftCore) (tr : List Event)
    (es2 : List Entry)
    (h : st.append_apply_log_entries p es c = some (resp, st', tr))
    (hs : resp.success = true)
    (hap : Event.appendLog es2 ∈ tr) :
    es2 = (skip_matching_entries st es).1.2 := by
  obtain ⟨tr4, htr, hr⟩ := append_apply_success_trace st p es c resp st' tr h hs
  rw [htr] at hap
  rcases List.mem_append.mp hap with hap | hap
  · rcases List.mem_append.mp hap with hap | hap
    · rcases List.mem_append.mp hap with hap | hap
      · rcases List.mem_append.mp hap with hap | hap
        · rcases List.mem_append.mp hap with hap | hap
          · obtain ⟨i, hev⟩ := dlim_events _ _ _ hap
            simp at hev
          · obtain ⟨i, hev⟩ := skip_events _ _ _ hap
            simp at hev
        · obtain ⟨e0, -, hev⟩ := fad_events _ _ _ hap
          rcases hev with hev | hev | hev | ⟨m, hev⟩ <;> simp at hev
      · rcases append_log_events _ _ _ hap with hev | ⟨m, hev⟩
        · injection hev with hev
        · simp at hev
    · rcases replicate_events _ _ _ hr _ hap with ⟨lo, hi, hev⟩ | ⟨es3, hev⟩ | hev <;>
        simp at hev
  · simp at hap

theorem delete_ev_target (st : RaftCore) (p : Option LogId) (es : List Entry)
    (c : Option LogId) (resp : AppendEntriesResponse) (st' : RaftCore) (tr : List Event)
    (s : LogId)
    (h : st.append_apply_log_entries p es c = some (resp, st', tr))
    (hs : resp.success = true)
    (hd : Event.deleteSince s ∈ tr) :
    ∃ e0, ((skip_matching_entries st es).1.2).head? = some e0 ∧ s = e0.log_id := by
  obtain ⟨tr4, htr, hr⟩ := append_apply_success_trace st p es c resp st' tr h hs
  rw [htr] at hd
  rcases List.mem_append.mp hd with hd | hd
  · rcases List.mem_append.mp hd with hd | hd
    · rcases List.mem_append.mp hd with hd | hd
      · rcases List.mem_append.mp hd with hd | hd
        · rcases List.mem_append.mp hd with hd | hd
          · obtain ⟨i, hev⟩ := dlim_events _ _ _ hd
            simp at hev
          · obtain ⟨i, hev⟩ := skip_events _ _ _ hd
            simp at hev
        · obtain ⟨e0, hhead, hev⟩ := fad_events _ _ _ hd
          rcases hev with hev | hev | hev | ⟨m, hev⟩
          · injection hev with hev
            exact ⟨e0, hhead, hev⟩
          · simp at hev
          · simp at hev
          · simp at hev
      · rcases append_log_events _ _ _ hd with hev | ⟨m, hev⟩ <;> simp at hev
    · rcases replicate_events _ _ _ hr _ hd with ⟨lo, hi, hev⟩ | ⟨es3, hev⟩ | hev <;>
        simp at hev
  · simp at hd

/-- C7: the prefix-skip step drops exactly the maximal leading run of
entries that match locally (log id at or below `committed`, or equal to the
local entry at the same index), stops at the first entry matching neither,
and returns the remaining suffix unchanged (openraft append_entries.rs
lines 266-294); on the success path only that suffix is handed to conflict
deletion and to the append (lines 229-244). -/
theorem C7_skip_matching (st : RaftCore) (entries : List Entry) :
    (skip_matching_entries st entries).1.2
        = entries.drop (skip_matching_entries st entries).1.1
    ∧ (skip_matching_entries st entries).1.1 ≤ entries.length
    ∧ (∀ e ∈ entries.take (skip_matching_entries st entries).1.1, entry_matches st e = true)
    ∧ (∀ e, ((skip_matching_entries st entries).1.2).head? = some e →
        entry_matches st e = false)
    ∧ (∀ p c resp st' tr, st.append_apply_log_entries p entries c = some (resp, st', tr) →
        resp.success = true →
          (∀ es, Event.appendLog es ∈ tr → es = (skip_matching_entries st entries).1.2)
          ∧ (∀ s, Event.deleteSince s ∈ tr →
              ∃ e0, ((skip_matching_entries st entries).1.2).head? = some e0
                ∧ s = e0.log_id)) := by
  obtain ⟨hn, hsuf⟩ := skip_spec st entries
  refine ⟨?_, ?_, ?_, ?_, ?_⟩
  · rw [hn, hsuf]
    nth_rewrite 3 [← List.takeWhile_append_dropWhile (entry_matches st) entries]
    rw [List.drop_left]
  · rw [hn]
    exact (List.takeWhile_prefix (entry_matches st)).length_le
  · intro e he
    rw [hn] at he
    have htake : entries.take (entries.takeWhile (entry_matches st)).length
        = entries.takeWhile (entry_matches st) := by
      nth_rewrite 2 [← List.takeWhile_append_dropWhile (entry_matches st) entries]
      rw [List.take_left]
    rw [htake] at he
    exact List.mem_takeWhile_imp he
  · intro e he
    rw [hsuf] at he
    have h4 := List.head?_dropWhile_not (entry_matches st) entries
    rw [he] at h4
    exact h4
  · intro p c resp st' tr h hs
    exact ⟨fun es hap => append_ev_unique st p entries c resp st' tr es h hs hap,
           fun s hd => delete_ev_target st p entries c resp st' tr s h hs hd⟩

/-- Witness for C7 at spec scenario 6: log `(1,1) (1,2) (1,3)` with `(1,1)`
committed and request entries `(1,2) (1,3) (1,4)` — the skip drops the two
matching entries and hands only `(1,4)` onward. -/
theorem C7_skip_matching_witness :
    (skip_matching_entries st_skip3 req_skip.entries).1.2
        = req_skip.entries.drop (skip_matching_entries st_skip3 req_skip.entries).1.1
    ∧ (skip_matching_entries st_skip3 req_skip.entries).1.1 ≤ req_skip.entries.length
    ∧ (∀ e ∈ req_skip.entries.take (skip_matching_entries st_skip3 req_skip.entries).1.1,
        entry_matches st_skip3 e = true)
    ∧ (∀ e, ((skip_matching_entries st_skip3 req_skip.entries).1.2).head? = some e →
        entry_matches st_skip3 e = false)
    ∧ (∀ p c resp st' tr,
        st_skip3.append_apply_log_entries p req_skip.entries c = some (resp, st', tr) →
        resp.success = true →
          (∀ es, Event.appendLog es ∈ tr →
            es = (skip_matching_entries st_skip3 req_skip.entries).1.2)
          ∧ (∀ s, Event.deleteSince s ∈ tr →
              ∃ e0, ((skip_matching_entries st_skip3 req_skip.entries).1.2).head? = some e0
                ∧ s = e0.log_id)) :=
  C7_skip_matching st_skip3 req_skip.entries

/-- C5 (counterexample): an empty node accepting one `Membership` entry
does install `{log_id (1,1), config 7}` as the effective membership, but the
installation event precedes the `append_to_log` storage call —
`update_membership` runs before `storage.append_to_log` in
`append_log_entries` (openraft append_entries.rs lines 357-364), so the
installation does not happen after the append has been persisted. -/
theorem C5_membership_installed_before_append :
    (st_empty.handle_append_entries_request req_membership).map
      (fun r => (r.2.1.effective_membership,
        decide (Event.updateMembership { log_id := { term := 1, index := 1 }, membership := 7 }
          ∈ r.2.2),
        installed_after_append r.2.2 { log_id := { term := 1, index := 1 }, membership := 7 }))
      = some ({ log_id := { term := 1, index := 1 }, membership := 7 }, true, false) := rfl

/-- C5 (amended): whenever the handler appends a non-empty suffix whose
last `Membership` payload is `m`, the final `EffectiveMembership` is exactly
`m` and the installation event is recorded immediately *before* (not after)
the `append_to_log` call of the same handler invocation (openraft
append_entries.rs lines 336-369). -/
theorem C5_membership_from_last_payload (st : RaftCore) (msg : AppendEntriesRequest)
    (resp : AppendEntriesResponse) (st' : RaftCore) (tr : List Event) (es : List Entry)
    (m : EffectiveMembership)
    (h : st.handle_append_entries_request msg = some (resp, st', tr))
    (hap : Event.appendLog es ∈ tr)
    (hm : get_membership es = some m) :
    st'.effective_membership = m
    ∧ ∃ tra trc, tr = tra ++ Event.updateMembership m :: Event.appendLog es :: trc := by
  by_cases hst : msg.term < st.current_term
  · unfold RaftCore.handle_append_entries_request at h
    rw [if_pos hst] at h
    simp only [Option.some.injEq, Prod.mk.injEq] at h
    obtain ⟨-, -, h3⟩ := h
    rw [← h3] at hap
    simp at hap
  · rw [handle_nonstale_eq st msg hst] at h
    cases ha : (st.update_term_leader msg).1.append_apply_log_entries msg.prev_log_id
        msg.entries (valid_committed_of msg) with
    | none => rw [ha] at h; exact absurd h (by simp)
    | some trip =>
      obtain ⟨resp2, st5, tr5⟩ := trip
      rw [ha] at h
      dsimp only at h
      simp only [Option.some.injEq, Prod.mk.injEq] at h
      obtain ⟨hr2, h5, htr⟩ := h
      rw [← htr] at hap
      have hap5 : Event.appendLog es ∈ tr5 := by
        rcases List.mem_append.mp hap with hap2 | hap2
        · rcases utl_events st msg _ hap2 with ⟨t, v, hev⟩ | hev <;> simp at hev
        · exact hap2
      have hs2 : resp2.success = true := by
        cases hm0 : (does_log_id_match (st.update_term_leader msg).1 msg.prev_log_id).1 with
        | none => exact match_success _ _ _ _ _ _ _ hm0 ha
        | some x =>
          rw [append_apply_mismatch_eq _ _ _ _ x hm0] at ha
          simp only [Option.some.injEq, Prod.mk.injEq] at ha
          obtain ⟨-, -, ha3⟩ := ha
          rw [← ha3] at hap5
          rcases List.mem_append.mp hap5 with hap6 | hap6
          · obtain ⟨i, hev⟩ := dlim_events _ _ _ hap6
            simp at hev
          · cases hll : (st.update_term_leader msg).1.last_log_id with
            | none => rw [hll] at hap6; simp at hap6
            | some last =>
              rw [hll] at hap6
              dsimp only at hap6
              by_cases hle : x.index ≤ last.index
              · rw [if_pos hle] at hap6
                rcases mem_dcls_events _ _ _ hap6 with hev | hev | hev | ⟨mm, hev⟩ <;>
                  simp at hev
              · rw [if_neg hle] at hap6
                simp at hap6
      have hes : es = (skip_matching_entries (st.update_term_leader msg).1 msg.entries).1.2 :=
        append_ev_unique _ _ _ _ _ _ _ _ ha hs2 hap5
      subst hes
      obtain ⟨tr4, htr5, hrep⟩ := append_apply_success_trace _ _ _ _ _ _ _ ha hs2
      cases hsuf : (skip_matching_entries (st.update_term_leader msg).1 msg.entries).1.2 with
      | nil =>
        rw [hsuf] at hm
        simp [get_membership] at hm
      | cons e0 rest =>
        obtain ⟨lastE, -, happ⟩ := append_log_result
          ((st.update_term_leader msg).1.find_and_delete_conflict_logs (e0 :: rest)).1 e0 rest
        rw [hsuf] at hm
        constructor
        · rw [← h5]
          have hfield := (replicate_some_fields _ _ _ hrep).2.2.2.2.2.2.2.2.2
          rw [hfield]
          show (((st.update_term_leader msg).1.find_and_delete_conflict_logs
              (skip_matching_entries (st.update_term_leader msg).1
                msg.entries).1.2).1.append_log_entries
              (skip_matching_entries (st.update_term_leader msg).1
                msg.entries).1.2).1.effective_membership = m
          rw [hsuf]
          have hproj := congrArg (fun q => q.1.effective_membership) happ
          dsimp only at hproj
          rw [hproj, hm]
          rfl
        · refine ⟨(st.update_term_leader msg).2 ++
            ((does_log_id_match (st.update_term_leader msg).1 msg.prev_log_id).2 ++
             (skip_matching_entries (st.update_term_leader msg).1 msg.entries).2 ++
             ((st.update_term_leader msg).1.find_and_delete_conflict_logs (e0 :: rest)).2),
            tr4 ++ [Event.metrics], ?_⟩
          have htr2 := congrArg (fun q => q.2) happ
          dsimp only at htr2
          rw [← htr, htr5, hsuf, htr2, hm]
          dsimp only
          simp [List.append_assoc]

/-- Witness for the amended C5: the membership request to the empty node
installs `{(1,1), 7}` and the installation event sits directly before the
`append_to_log` event in the recorded trace. -/
theorem C5_membership_from_last_payload_witness :
    st_after_membership.effective_membership
        = { log_id := { term := 1, index := 1 }, membership := 7 }
    ∧ ∃ tra trc, tr_after_membership = tra ++
        Event.updateMembership { log_id := { term := 1, index := 1 }, membership := 7 }
        :: Event.appendLog [entryM1] :: trc :=
  C5_membership_from_last_payload st_empty req_membership
    { term := 1, success := true, conflict := false } st_after_membership tr_after_membership
    [entryM1] { log_id := { term := 1, index := 1 }, membership := 7 }
    (by rfl) (by decide) (by rfl)

theorem try_get_iff (log : List Entry) (hasc : entries_ascending log) (i : Nat) (e : Entry) :
    try_get_log_entry log i = some e ↔ (e ∈ log ∧ e.log_id.index = i) := by
  constructor
  · intro h
    refine ⟨List.mem_of_find?_eq_some h, ?_⟩
    have := List.find?_some h
    exact of_decide_eq_true this
  · intro ⟨hm, hi⟩
    induction log with
    | nil => simp at hm
    | cons a rest ih =>
      by_cases ha : a.log_id.index = i
      · have hea : e = a := by
          rcases List.mem_cons.mp hm with rfl | hmem
          · rfl
          · have := (List.pairwise_cons.mp hasc).1 e hmem
            rw [hi, ha] at this
            exact absurd this (Nat.lt_irrefl _)
        rw [hea]
        exact List.find?_cons_of_pos _ (decide_eq_true ha)
      · have hmem : e ∈ rest := by
          rcases List.mem_cons.mp hm with rfl | hmem
          · exact absurd hi ha
          · exact hmem
        rw [try_get_log_entry, List.find?_cons_of_neg _ (by simpa using ha)]
        exact ih (List.pairwise_cons.mp hasc).2 hmem

theorem matches_found (st : RaftCore) (e : Entry)
    (hinv : optLeb (some e.log_id) st.committed = true →
      ∃ e', try_get_log_entry st.log e.log_id.index = some e' ∧ e'.log_id = e.log_id)
    (hm : entry_matches st e = true) :
    ∃ e', try_get_log_entry st.log e.log_id.index = some e' ∧ e'.log_id = e.log_id := by
  unfold entry_matches at hm
  rw [Bool.or_eq_true] at hm
  rcases hm with hc | hl
  · exact hinv hc
  · cases hg : try_get_log_entry st.log e.log_id.index with
    | none => rw [hg] at hl; simp at hl
    | some localE =>
      rw [hg] at hl
      exact ⟨localE, rfl, of_decide_eq_true hl⟩

theorem lookup_in_extended (st : RaftCore) (base suf es : List Entry)
    (hbase_asc : entries_ascending base)
    (hsuf_eq : es.dropWhile (entry_matches st) = suf)
    (hents : entries_ascending es)
    (hbound : ∀ b ∈ base, ∀ s2 ∈ suf, b.log_id.index < s2.log_id.index)
    (hkeep : ∀ e' ∈ st.log,
        (∀ s2 ∈ suf, e'.log_id.index < s2.log_id.index) → e' ∈ base)
    (hinv : ∀ e ∈ es, optLeb (some e.log_id) st.committed = true →
        ∃ e', try_get_log_entry st.log e.log_id.index = some e' ∧ e'.log_id = e.log_id) :
    entries_ascending (base ++ suf)
    ∧ ∀ e ∈ es, ∃ e', try_get_log_entry (base ++ suf) e.log_id.index = some e'
        ∧ e'.log_id = e.log_id := by
  have hsuf_asc : entries_ascending suf := by
    rw [← hsuf_eq]
    exact List.Pairwise.sublist (List.dropWhile_suffix (entry_matches st)).sublist hents
  have hasc2 : entries_ascending (base ++ suf) :=
    List.pairwise_append.mpr ⟨hbase_asc, hsuf_asc, hbound⟩
  have hwhole : entries_ascending
      (es.takeWhile (entry_matches st) ++ es.dropWhile (entry_matches st)) := by
    rw [List.takeWhile_append_dropWhile]
    exact hents
  refine ⟨hasc2, ?_⟩
  intro e he
  have hsplit : e ∈ es.takeWhile (entry_matches st) ∨ e ∈ suf := by
    rw [← hsuf_eq]
    have h2 := List.takeWhile_append_dropWhile (entry_matches st) es
    conv at he => rw [← h2]
    exact List.mem_append.mp he
  rcases hsplit with htk | hsu
  · have hm := List.mem_takeWhile_imp htk
    obtain ⟨e', hfind, hid⟩ := matches_found st e (hinv e he) hm
    have he'mem : e' ∈ st.log := List.mem_of_find?_eq_some hfind
    have he'idx : e'.log_id.index = e.log_id.index := by
      have hfind2 : st.log.find? (fun e2 => decide (e2.log_id.index = e.log_id.index))
          = some e' := hfind
      have h3 := List.find?_some hfind2
      exact of_decide_eq_true h3
    have hlt : ∀ s2 ∈ suf, e'.log_id.index < s2.log_id.index := by
      intro s2 hs2
      rw [he'idx]
      refine (List.pairwise_append.mp hwhole).2.2 e htk s2 ?_
      rw [hsuf_eq]
      exact hs2
    refine ⟨e', ?_, hid⟩
    exact (try_get_iff _ hasc2 _ _).mpr
      ⟨List.mem_append.mpr (Or.inl (hkeep e' he'mem hlt)), he'idx⟩
  · refine ⟨e, ?_, rfl⟩
    exact (try_get_iff _ hasc2 _ _).mpr ⟨List.mem_append.mpr (Or.inr hsu), rfl⟩

theorem append_apply_log_lookup (st : RaftCore) (p : Option LogId) (es : List Entry)
    (c : Option LogId) (resp : AppendEntriesResponse) (st' : RaftCore) (tr : List Event)
    (h : st.append_apply_log_entries p es c = some (resp, st', tr))
    (hs : resp.success = true)
    (hasc : entries_ascending st.log)
    (hlast : st.last_log_id = get_log_state_last st.log)
    (hents : entries_ascending es)
    (hinv : ∀ e ∈ es, optLeb (some e.log_id) st.committed = true →
        ∃ e', try_get_log_entry st.log e.log_id.index = some e' ∧ e'.log_id = e.log_id) :
    entries_ascending st'.log
    ∧ ∀ e ∈ es, ∃ e', try_get_log_entry st'.log e.log_id.index = some e'
        ∧ e'.log_id = e.log_id := by
  obtain ⟨tr4, -, hrep⟩ := append_apply_success_trace st p es c resp st' tr h hs
  have hlog : st'.log = ((st.find_and_delete_conflict_logs
      (skip_matching_entries st es).1.2).1.append_log_entries
        (skip_matching_entries st es).1.2).1.log :=
    (replicate_some_fields _ _ _ hrep).2.2.2.2.2.2.2.1
  have hsksuf := (skip_spec st es).2
  cases hd : es.dropWhile (entry_matches st) with
  | nil =>
    have hsuf : (skip_matching_entries st es).1.2 = [] := by rw [hsksuf, hd]
    rw [hsuf] at hlog
    have hlog2 : st'.log = st.log := hlog
    rw [hlog2]
    refine ⟨hasc, ?_⟩
    intro e he
    have hm : entry_matches st e = true := by
      have h2 := List.takeWhile_append_dropWhile (entry_matches st) es
      rw [hd, List.append_nil] at h2
      rw [← h2] at he
      exact List.mem_takeWhile_imp he
    exact matches_found st e (hinv e he) hm
  | cons e0 rest =>
    have hsuf : (skip_matching_entries st es).1.2 = e0 :: rest := by rw [hsksuf, hd]
    rw [hsuf] at hlog
    obtain ⟨lastE0, -, happ⟩ := append_log_result
      (st.find_and_delete_conflict_logs (e0 :: rest)).1 e0 rest
    have happlog := congrArg (fun q => q.1.log) happ
    dsimp only at happlog
    rw [happlog] at hlog
    have hsufasc : entries_ascending (e0 :: rest) := by
      rw [← hd]
      exact List.Pairwise.sublist (List.dropWhile_suffix (entry_matches st)).sublist hents
    have hheadle : ∀ s2 ∈ (e0 :: rest), e0.log_id.index ≤ s2.log_id.index := by
      intro s2 hs2
      rcases List.mem_cons.mp hs2 with rfl | hs3
      · exact Nat.le_refl _
      · exact Nat.le_of_lt ((List.pairwise_cons.mp hsufasc).1 s2 hs3)
    rcases fad_cases st (e0 :: rest) with ⟨heq, hside⟩ | ⟨e0', hhead, heq, hside⟩
    · rw [heq] at hlog
      rcases hside with habs | ⟨e0', last, hhead, hll, hlt⟩
      · simp at habs
      · have he0 : e0' = e0 := by
          simp at hhead
          rw [hhead]
        rw [he0] at hlt
        rw [hlog]
        refine (lookup_in_extended st st.log (e0 :: rest) es hasc hd hents ?_ ?_ hinv)
        · intro b hb s2 hs2
          rw [hll, get_log_state_last] at hlast
          cases hgl : st.log.getLast? with
          | none =>
            rw [hgl] at hlast
            simp at hlast
          | some lastE =>
            rw [hgl] at hlast
            simp at hlast
            obtain ⟨lastE2, hgl2, hble⟩ := mem_le_getLast st.log hasc b hb
            rw [hgl] at hgl2
            injection hgl2 with hgl2
            calc b.log_id.index ≤ lastE2.log_id.index := hble
              _ = last.index := by rw [← hgl2, hlast]
              _ < e0.log_id.index := hlt
              _ ≤ s2.log_id.index := hheadle s2 hs2
        · intro e' he' _
          exact he'
    · have he0 : e0' = e0 := by
        simp at hhead
        rw [hhead]
      rw [he0] at heq
      rw [heq] at hlog
      rw [(dcls_fields st e0.log_id).2.2.2.2.2.2.2.2.2.1] at hlog
      rw [hlog]
      refine (lookup_in_extended st (store_delete_since st.log e0.log_id) (e0 :: rest) es
        (List.Pairwise.sublist (List.filter_sublist st.log) hasc) hd hents ?_ ?_ hinv)
      · intro b hb s2 hs2
        have hb2 := List.mem_filter.mp hb
        have hblt : b.log_id.index < e0.log_id.index := of_decide_eq_true hb2.2
        exact Nat.lt_of_lt_of_le hblt (hheadle s2 hs2)
      · intro e' he' hltall
        refine List.mem_filter.mpr ⟨he', ?_⟩
        exact decide_eq_true (hltall e0 (List.mem_cons_self e0 rest))

/-- C4: on every `success=true` response from a well-formed request
(entries strictly ascending by index) handled in a well-formed state
(stored log strictly ascending, `last_log_id` consistent with the store,
and the committed-prefix invariant holding for the request's entries), the
final local log carries, at the index of every request entry, an entry with
exactly that entry's LogId — no stale conflicting entry survives and no
duplicate index is introduced (the final log is strictly ascending)
(openraft append_entries.rs lines 229-258 and 266-294). -/
theorem C4_log_matches_request (st : RaftCore) (msg : AppendEntriesRequest)
    (resp : AppendEntriesResponse) (st' : RaftCore) (tr : List Event)
    (h : st.handle_append_entries_request msg = some (resp, st', tr))
    (hs : resp.success = true)
    (hasc : entries_ascending st.log)
    (hlast : st.last_log_id = get_log_state_last st.log)
    (hents : entries_ascending msg.entries)
    (hinv : ∀ e ∈ msg.entries, optLeb (some e.log_id) st.committed = true →
        ∃ e', try_get_log_entry st.log e.log_id.index = some e' ∧ e'.log_id = e.log_id) :
    entries_ascending st'.log
    ∧ ∀ e ∈ msg.entries, ∃ e', try_get_log_entry st'.log e.log_id.index = some e'
        ∧ e'.log_id = e.log_id := by
  by_cases hst : msg.term < st.current_term
  · unfold RaftCore.handle_append_entries_request at h
    rw [if_pos hst] at h
    simp only [Option.some.injEq, Prod.mk.injEq] at h
    rw [← h.1] at hs
    simp at hs
  · rw [handle_nonstale_eq st msg hst] at h
    cases ha : (st.update_term_leader msg).1.append_apply_log_entries msg.prev_log_id
        msg.entries (valid_committed_of msg) with
    | none => rw [ha] at h; exact absurd h (by simp)
    | some trip =>
      obtain ⟨resp2, st5, tr5⟩ := trip
      rw [ha] at h
      dsimp only at h
      simp only [Option.some.injEq, Prod.mk.injEq] at h
      obtain ⟨hr2, h5, -⟩ := h
      obtain ⟨u1, u2, u3, -, -, -, -, -, -, -⟩ := utl_fields st msg
      have hres := append_apply_log_lookup (st.update_term_leader msg).1 msg.prev_log_id
        msg.entries (valid_committed_of msg) resp2 st5 tr5 ha (by rw [hr2]; exact hs)
        (by rw [u2]; exact hasc) (by rw [u3, u2]; exact hlast) hents ?_
      · rw [← h5]
        refine ⟨hres.1, ?_⟩
        intro e he
        exact hres.2 e he
      · intro e he hc
        rw [u1] at hc
        obtain ⟨e', hf, hid⟩ := hinv e he hc
        rw [u2]
        exact ⟨e', hf, hid⟩

/-- Witness for C4 at spec scenario 5: log `(1,1) (1,2) (2,3)` with
`(1,2)` committed, request `(3,3) (3,4)` after `(1,2)` — the final log is
`(1,1) (1,2) (3,3) (3,4)`, ascending, and contains each request entry at
its index. -/
theorem C4_log_matches_request_witness :
    entries_ascending st_after_overwrite.log
    ∧ ∀ e ∈ req_overwrite.entries, ∃ e',
        try_get_log_entry st_after_overwrite.log e.log_id.index = some e'
        ∧ e'.log_id = e.log_id :=
  C4_log_matches_request st_conflict3 req_overwrite
    { term := 3, success := true, conflict := false } st_after_overwrite tr_after_overwrite
    (by rfl) rfl (by unfold entries_ascending; decide) (by rfl)
    (by unfold entries_ascending; decide)
    (by
      intro e he hc
      exfalso
      revert hc
      rcases List.mem_cons.mp he with rfl | he2
      · decide
      · rcases List.mem_cons.mp he2 with rfl | he3
        · decide
        · simp at he3)
